import Mathlib

set_option autoImplicit false
set_option maxHeartbeats 1000000

/-
A verification development for the LevelDB-backed transaction / block-index
layer of the ECCoin node (src/src/txdb-leveldb.cpp).

The C++ source is shallowly embedded:

* the in-memory block-index graph `mapBlockIndex` (a `std::map` from 256-bit
  hash to heap-allocated `CBlockIndex*`) is modelled as an association list
  from `Nat` (the hash) to a `CBlockIndex` record; a `CBlockIndex*` pointer is
  represented by the hash of the node it points to, with `0` standing for the
  null pointer.  This is faithful because `InsertBlockIndex` maintains exactly
  one node per nonzero hash and returns `NULL` exactly for hash `0`;
* the LevelDB store restricted to the "blockindex" key range is modelled as an
  association list from hash to `CDiskBlockIndex`, kept in ascending key order
  by `storeWrite` (LevelDB iterates keys in order);
* machine integers are `Nat` / `Int`; where C++ unsigned wrap-around matters
  (`TotalNumBlocks - 250`, `vSpent.size() - 1`) it is made explicit with a
  modulus;
* external collaborators that live outside this repository's `src/` tree
  (block/transaction disk reads, `CheckBlock`, `CheckTransaction`,
  `GetBlockTrust`, the templated `CTxDB::Read`/`Exists` of txdb-leveldb.h)
  are modelled from the spec as explicit oracle parameters, see the doc
  comments on the corresponding definitions.
-/

namespace ECCTxDB

/-- Association-list lookup (first binding of the key wins), the model of
`std::map::find` / `leveldb` point reads used throughout this file. -/
def alookup {α β : Type} [DecidableEq α] : List (α × β) → α → Option β
  | [], _ => none
  | (k, v) :: rest, key => if key = k then some v else alookup rest key

/-- Replace the value bound to `key` (first occurrence), the model of writing
through a `std::map` iterator / a `CBlockIndex*` obtained from the map. -/
def aset {α β : Type} [DecidableEq α] : List (α × β) → α → β → List (α × β)
  | [], _, _ => []
  | (k, v) :: rest, key, w =>
    if key = k then (k, w) :: rest else (k, v) :: aset rest key w

/-- `std::map::operator[] =` : update the binding if present, append otherwise. -/
def ainsert {α β : Type} [DecidableEq α] (m : List (α × β)) (k : α) (v : β) :
    List (α × β) :=
  match alookup m k with
  | some _ => aset m k v
  | none => m ++ [(k, v)]

/-! ### Checkpoint selection (txdb-leveldb.cpp lines 478-491, claim C1) -/

/-- C++ `unsigned int` subtraction: `(a - b)` computed modulo `2^32`. -/
def usub32 (a b : Nat) : Nat := (a + 4294967296 - b) % 4294967296

/-- The body of the `mapCheckpoints` loop in `CTxDB::LoadBlockIndex`
(lines 480-491).  The list argument models iteration over the
`std::map<int, uint256> mapCheckpoints` in ascending key order; the two `Nat`
accumulators are the mutable locals `TotalNumBlocks` and `bestCheckpoint`.
The guard `TotalNumBlocks - 250 < 0` is unsigned in the source, hence the
explicit `usub32` (the comparison of an unsigned value with `0` by `<`). -/
def checkpointLoop : List (Nat × Nat) → Nat → Nat → Nat × Nat
  | [], tnb, best => (best, tnb)
  | (currentBest, _) :: rest, tnb, best =>
    let tnb2 := if usub32 tnb 250 < 0 then 0 else tnb
    let best2 := if currentBest < tnb2 then currentBest else best
    checkpointLoop rest tnb2 best2

/-- The checkpoint height selected by `LoadBlockIndex` given the total
persisted block count and the checkpoint table (`bestCheckpoint` starts at
`0`, meaning "none"). -/
def bestCheckpoint (totalNumBlocks : Nat) (mapCheckpoints : List (Nat × Nat)) : Nat :=
  (checkpointLoop mapCheckpoints totalNumBlocks 0).1

/-! ### The block-index graph and `InsertBlockIndex` (lines 318-336, claim C9) -/

/-- One in-memory block-index node (`CBlockIndex`, declared in main.h; the
fields embedded here are exactly the ones `txdb-leveldb.cpp` assigns).
`pprev` / `pnext` hold the hash of the referenced node, `0` for the null
pointer; `phashBlock` is the node's own hash (the back-reference into the
map key set by `InsertBlockIndex`). -/
structure CBlockIndex where
  phashBlock : Nat := 0
  pprev : Nat := 0
  pnext : Nat := 0
  nFile : Nat := 0
  nBlockPos : Nat := 0
  nHeight : Int := 0
  nMint : Int := 0
  nMoneySupply : Int := 0
  nFlags : Nat := 0
  nStakeModifier : Nat := 0
  prevoutStakeHash : Nat := 0
  prevoutStakeN : Nat := 0
  nStakeTime : Nat := 0
  hashProofOfStake : Nat := 0
  nVersion : Int := 0
  hashMerkleRoot : Nat := 0
  nTime : Nat := 0
  nBits : Nat := 0
  nNonce : Nat := 0
  nChainTrust : Nat := 0
deriving DecidableEq

/-- `static CBlockIndex *InsertBlockIndex(uint256 hash)` (lines 318-336):
for hash `0` it returns `NULL` (here the pair `(g, 0)`); otherwise it returns
the existing node for that hash, or inserts a fresh default-constructed node
whose `phashBlock` points back at its map key.  The returned `Nat` is the
pointer, i.e. the hash of the returned node (`0` = `NULL`). -/
def insertBlockIndex (g : List (Nat × CBlockIndex)) (h : Nat) :
    List (Nat × CBlockIndex) × Nat :=
  if h = 0 then (g, 0)
  else
    match alookup g h with
    | some _ => (g, h)
    | none => (g ++ [(h, { phashBlock := h })], h)

/-! ### The batch scanner and batched reads (lines 165-208, claim C6) -/

/-- One buffered operation of an open `leveldb::WriteBatch`. -/
inductive BatchOp
  | put : String → String → BatchOp
  | del : String → BatchOp
deriving DecidableEq

/-- The key an operation is about. -/
def BatchOp.key : BatchOp → String
  | .put k _ => k
  | .del k => k

/-- The mutable state of a `CBatchScanner` (lines 165-188): `foundEntry`
starts `false`; `deleted` and `foundValue` model the locations the scanner
writes through (`ScanBatch` initialises `*deleted = false`). -/
structure ScanResult where
  foundEntry : Bool
  deleted : Bool
  foundValue : String
deriving DecidableEq

/-- The `Put` / `Delete` handlers of `CBatchScanner`: an entry matching the
needle overwrites the result (`Delete` leaves `foundValue` untouched). -/
def scanStep (needle : String) (r : ScanResult) : BatchOp → ScanResult
  | .put k v =>
    if k = needle then { foundEntry := true, deleted := false, foundValue := v } else r
  | .del k =>
    if k = needle then { foundEntry := true, deleted := true, foundValue := r.foundValue } else r

/-- `CTxDB::ScanBatch` (lines 195-208): `WriteBatch::Iterate` replays the
buffered operations in insertion order through the scanner, so the most
recent entry for the needle wins. -/
def scanBatch (ops : List BatchOp) (needle : String) : ScanResult :=
  ops.foldl (scanStep needle) { foundEntry := false, deleted := false, foundValue := "" }

/-- Modelled from the spec: the templated `CTxDB::Read` lives in
txdb-leveldb.h, which is not under `src/`.  Per the spec (section 4.1),
a read issued while a batch is open first consults the buffered batch
content via `ScanBatch` - a buffered erase hides the key, a buffered write
supplies the value - and only otherwise falls through to the underlying
store. -/
def dbRead (ops : List BatchOp) (store : String → Option String) (k : String) :
    Option String :=
  let r := scanBatch ops k
  if r.foundEntry = true then (if r.deleted = true then none else some r.foundValue)
  else store k

/-- Modelled from the spec: the templated `CTxDB::Exists` of txdb-leveldb.h,
same batch-first discipline as `dbRead`. -/
def dbExists (ops : List BatchOp) (store : String → Option String) (k : String) : Bool :=
  let r := scanBatch ops k
  if r.foundEntry = true then !r.deleted
  else (store k).isSome

/-! ### Best-chain tip resolution (lines 590-601, claim C7) -/

/-- Outcome of `LoadBlockIndex` at the tip-resolution stage: `ok none` is the
early `return true` taken when no best-chain record exists and no genesis
block was seen (fresh database); `ok (some tip)` continues the load with the
resolved tip; `fatal` is `return error(...)`. -/
inductive LoadResult
  | ok : Option Nat → LoadResult
  | fatal : String → LoadResult
deriving DecidableEq

/-- Lines 590-601 of `CTxDB::LoadBlockIndex`: resolve `hashBestChain`.
`readBest` models `ReadHashBestChain` (the "hashBestChain" metadata record),
`genesisFound` models `pindexGenesisBlock != NULL`, `g` is `mapBlockIndex`. -/
def resolveBestChain (readBest : Option Nat) (genesisFound : Bool)
    (g : List (Nat × CBlockIndex)) : LoadResult :=
  match readBest with
  | none =>
    if genesisFound = false then .ok none
    else .fatal "hashBestChain not loaded"
  | some tip =>
    if (alookup g tip).isNone then .fatal "hashBestChain not found in the block index"
    else .ok (some tip)

/-! ### The count pass (lines 457-470, claim C8) -/

/-- The count pass of `LoadBlockIndex`.  The list is the sequence of store
keys from the seek position `("blockindex", 0)` onwards, each as its
discriminator tag (the deserialised `strType`) and payload; the counter
`TotalNumBlocks` is incremented BEFORE the tag / shutdown test, and the loop
breaks on a shutdown request or the first key whose tag is not
"blockindex". -/
def countLoop (shutdown : Bool) : List (String × Nat) → Nat
  | [] => 0
  | (tag, _) :: rest =>
    1 + (if shutdown = true ∨ tag ≠ "blockindex" then 0 else countLoop shutdown rest)

/-! ### Persisted block-index records, `WriteBlockIndex`, and the load pass
(lines 273-276 and 506-567, claim C2) -/

/-- One persisted block-index record (`CDiskBlockIndex`, declared in main.h;
the fields embedded here are the ones `txdb-leveldb.cpp` reads).
`blockHash` is modelled from the spec: the hash getters `GetBlockHash` /
`GetBlockHashScrypt` are defined outside this repository's `src/` tree, and
the spec's data model (section 3) gives each record a single 256-bit identity
hash, so both getters are embedded as this one field. -/
structure CDiskBlockIndex where
  blockHash : Nat := 0
  hashPrev : Nat := 0
  hashNext : Nat := 0
  nFile : Nat := 0
  nBlockPos : Nat := 0
  nHeight : Int := 0
  nMint : Int := 0
  nMoneySupply : Int := 0
  nFlags : Nat := 0
  nStakeModifier : Nat := 0
  prevoutStakeHash : Nat := 0
  prevoutStakeN : Nat := 0
  nStakeTime : Nat := 0
  hashProofOfStake : Nat := 0
  nVersion : Int := 0
  hashMerkleRoot : Nat := 0
  nTime : Nat := 0
  nBits : Nat := 0
  nNonce : Nat := 0
deriving DecidableEq

/-- `CTxDB::WriteBlockIndex` (lines 273-276): write the record under the key
`("blockindex", hash)`.  LevelDB keeps keys in ascending order, so the store
is modelled as an association list kept sorted by hash: a write replaces the
binding for its hash or inserts it at its ordered position. -/
def storeWrite : List (Nat × CDiskBlockIndex) → CDiskBlockIndex →
    List (Nat × CDiskBlockIndex)
  | [], d => [(d.blockHash, d)]
  | (k, v) :: rest, d =>
    if d.blockHash < k then (d.blockHash, d) :: (k, v) :: rest
    else if d.blockHash = k then (d.blockHash, d) :: rest
    else (k, v) :: storeWrite rest d

/-- The store contents after a sequence of `WriteBlockIndex` calls on an
initially empty store. -/
def mkStore (writes : List CDiskBlockIndex) : List (Nat × CDiskBlockIndex) :=
  writes.foldl storeWrite []

/-- The last record of the write sequence carrying the given hash. -/
def lastWrite (writes : List CDiskBlockIndex) (h : Nat) : Option CDiskBlockIndex :=
  writes.foldl (fun acc d => if d.blockHash = h then some d else acc) none

/-- The buffering loop of the load pass (lines 511-528): stream every record
of the blockindex key range into `vDiskBlockIndex`, breaking (before the
push) on a shutdown request.  The tag test cannot fire here because the
argument list is exactly the blockindex range. -/
def collectRecords (shutdown : Bool) : List (Nat × CDiskBlockIndex) →
    List CDiskBlockIndex
  | [] => []
  | (_, d) :: rest => if shutdown = true then [] else d :: collectRecords shutdown rest

/-- The field assignments `pindexNew->... = diskindex.ment...` of lines 540-554;
`prevPtr` / `nextPtr` are the pointers returned by the two `InsertBlockIndex`
calls on `hashPrev` / `hashNext`. -/
def setFields (n : CBlockIndex) (prevPtr nextPtr : Nat) (d : CDiskBlockIndex) :
    CBlockIndex :=
  { n with
    pprev := prevPtr, pnext := nextPtr, nFile := d.nFile, nBlockPos := d.nBlockPos,
    nHeight := d.nHeight, nMint := d.nMint, nMoneySupply := d.nMoneySupply,
    nFlags := d.nFlags, nStakeModifier := d.nStakeModifier,
    prevoutStakeHash := d.prevoutStakeHash, prevoutStakeN := d.prevoutStakeN,
    nStakeTime := d.nStakeTime, hashProofOfStake := d.hashProofOfStake,
    nVersion := d.nVersion, hashMerkleRoot := d.hashMerkleRoot,
    nTime := d.nTime, nBits := d.nBits, nNonce := d.nNonce }

/-- One iteration of the node-construction loop (lines 530-563): insert (or
find) the node for the record's own hash and placeholders for its
predecessor and successor hashes, then populate the node's fields from the
record.  A record whose own hash is `0` makes the C++ write through the
`NULL` returned by `InsertBlockIndex`; that undefined behaviour is
unreachable under the nonzero-hash hypotheses of the theorems below, and is
embedded as a no-op. -/
def loadRecord (g : List (Nat × CBlockIndex)) (d : CDiskBlockIndex) :
    List (Nat × CBlockIndex) :=
  let r1 := insertBlockIndex g d.blockHash
  let r2 := insertBlockIndex r1.1 d.hashPrev
  let r3 := insertBlockIndex r2.1 d.hashNext
  match alookup r3.1 r1.2 with
  | some n => aset r3.1 r1.2 (setFields n r2.2 r3.2 d)
  | none => r3.1

/-- The load pass of `LoadBlockIndex` (lines 506-567) on an empty graph with
no shutdown request: buffer all records of the blockindex range, then
resolve each into a graph node. -/
def loadPass (store : List (Nat × CDiskBlockIndex)) : List (Nat × CBlockIndex) :=
  (collectRecords false store).foldl loadRecord []

/-- The per-node fields claim C2 names, as copied by lines 540-554. -/
def fieldsMatch (n : CBlockIndex) (d : CDiskBlockIndex) : Prop :=
  n.nHeight = d.nHeight ∧ n.nFile = d.nFile ∧ n.nBlockPos = d.nBlockPos ∧
  n.nTime = d.nTime ∧ n.nBits = d.nBits ∧ n.nNonce = d.nNonce ∧
  n.nVersion = d.nVersion ∧ n.hashMerkleRoot = d.hashMerkleRoot ∧
  n.nStakeModifier = d.nStakeModifier ∧ n.prevoutStakeHash = d.prevoutStakeHash ∧
  n.prevoutStakeN = d.prevoutStakeN ∧ n.nStakeTime = d.nStakeTime ∧
  n.hashProofOfStake = d.hashProofOfStake ∧ n.nFlags = d.nFlags ∧
  n.nMint = d.nMint ∧ n.nMoneySupply = d.nMoneySupply

instance fieldsMatchDecidable (n : CBlockIndex) (d : CDiskBlockIndex) :
    Decidable (fieldsMatch n d) := by
  unfold fieldsMatch; infer_instance

/-! ### The chain-trust phase (lines 573-589, claim C3) -/

/-- Forget the computed trust of a node (used to state that the trust phase
touches no other field). -/
def eraseTrust (n : CBlockIndex) : CBlockIndex := { n with nChainTrust := 0 }

/-- Ordered insertion for `(height, hash)` pairs.  The C++ sorts
`vector<pair<int, CBlockIndex*>>` with `std::sort`, whose tie order on equal
heights is the arbitrary pointer order; the spec (section 4.4) allows any
deterministic tie-break, and this stable insertion sort realises one. -/
def insertByHeight (x : Int × Nat) : List (Int × Nat) → List (Int × Nat)
  | [] => [x]
  | y :: ys => if x.1 ≤ y.1 then x :: y :: ys else y :: insertByHeight x ys

/-- `vSortedByHeight` after `sort` (lines 574-583). -/
def sortByHeight (l : List (Int × Nat)) : List (Int × Nat) := l.foldr insertByHeight []

/-- One iteration of the trust loop (lines 585-589):
`pindex->nChainTrust = (pindex->pprev ? pindex->pprev->nChainTrust : 0) +
pindex->GetBlockTrust()`.  `gbt` is `GetBlockTrust`, an external predicate
(defined in main.h outside `src/`), modelled from the spec as the node's
intrinsic trust contribution; a dangling `pprev` hash (impossible in a graph
produced by the load pass) contributes `0`. -/
def trustStep (gbt : CBlockIndex → Nat) (g : List (Nat × CBlockIndex))
    (p : Int × Nat) : List (Nat × CBlockIndex) :=
  match alookup g p.2 with
  | none => g
  | some n =>
    let prevTrust :=
      if n.pprev = 0 then 0
      else
        match alookup g n.pprev with
        | some m => m.nChainTrust
        | none => 0
    aset g p.2 { n with nChainTrust := prevTrust + gbt n }

/-- The whole trust-calculation phase (lines 573-589): collect `(height,
node)` pairs from the graph, sort by height ascending, then accumulate
trust in that order. -/
def trustPhase (gbt : CBlockIndex → Nat) (g : List (Nat × CBlockIndex)) :
    List (Nat × CBlockIndex) :=
  (sortByHeight (g.map (fun e => (e.2.nHeight, e.1)))).foldl (trustStep gbt) g

/-! ### The backward validation walk (lines 626-751, claims C4, C5, C10) -/

/-- A disk position (`CDiskTxPos`, declared in main.h; the fields used by
txdb-leveldb.cpp). -/
structure TxPos where
  nFile : Nat := 0
  nBlockPos : Nat := 0
  nTxPos : Nat := 0
deriving DecidableEq

/-- A transaction input's previous-output reference (`CTxIn::prevout`). -/
structure TxIn where
  prevoutHash : Nat := 0
  prevoutN : Nat := 0
deriving DecidableEq

/-- A transaction as the validator sees it.  `txHash` is modelled from the
spec: `CTransaction::GetHash` is defined outside `src/`, and the spec keys
transaction-index records by the transaction's identity hash. -/
structure CTransaction where
  txHash : Nat := 0
  vin : List TxIn := []
deriving DecidableEq

/-- A block body as the validator sees it. -/
structure CBlock where
  vtx : List CTransaction := []
deriving DecidableEq

/-- A transaction-index record (`CTxIndex`): the transaction's own disk
position plus the per-output spent-marker list, where `none` is the null
("unspent") marker - `CDiskTxPos::IsNull` is defined outside `src/` and is
modelled from the spec's "null = unspent". -/
structure CTxIndex where
  pos : TxPos := {}
  vSpent : List (Option TxPos) := []
deriving DecidableEq

/-- The external collaborators invoked by the validation walk, all defined
outside `src/` and modelled from the spec as black-box oracles
(section 6 of the spec):
`readBlock file pos` is `CBlock::ReadFromDisk(pindex)` keyed by the node's
disk position; `readTxIndex` is `CTxDB::ReadTxIndex` over the "tx" records;
`readTxDisk` is `CTransaction::ReadFromDisk(CDiskTxPos)`; `checkBlock b sig`
is `b.CheckBlock(true, true, sig)`; `checkTransaction` is
`CTransaction::CheckTransaction`. -/
structure ValEnv where
  readBlock : Nat → Nat → Option CBlock
  readTxIndex : Nat → Option CTxIndex
  readTxDisk : TxPos → Option CTransaction
  checkBlock : CBlock → Bool → Bool
  checkTransaction : CTransaction → Bool

/-- C++ `size_t` subtraction: `(a - b)` computed modulo `2^64` (the
`txindex.vSpent.size()-1` of line 732). -/
def usub64 (a b : Nat) : Nat :=
  (a + 18446744073709551616 - b) % 18446744073709551616

/-- The level-5 per-input test (lines 728-737): a prevout whose origin
transaction has an index record is flagged when the spent-marker list is too
short (unsigned `size()-1` comparison) or the marker at its index is null.
The C++ indexes `vSpent` out of bounds when the list is empty; that read is
embedded as the null marker. -/
def vinCheck (env : ValEnv) (txin : TxIn) : Bool :=
  match env.readTxIndex txin.prevoutHash with
  | none => false
  | some ti =>
    decide (usub64 ti.vSpent.length 1 < txin.prevoutN) ||
    (ti.vSpent.getD txin.prevoutN none).isNone

/-- The level-4/6 loop over `txindex.vSpent` (lines 680-722), carrying the
`nOutput` counter and the candidate repair point (`fork`, the hash held by
`pindexFork`, `0` = `NULL`). -/
def spentLoop (env : ValEnv) (lvl : Int) (p : CBlockIndex)
    (mbp : List ((Nat × Nat) × Nat)) (hashTx : Nat) :
    List (Option TxPos) → Nat → Nat → Nat
  | [], _, fork => fork
  | txpos? :: rest, nOutput, fork =>
    let fork2 :=
      match txpos? with
      | none => fork
      | some txpos =>
        let f1 :=
          if (alookup mbp (txpos.nFile, txpos.nBlockPos)).isNone then p.pprev else fork
        if lvl > 5 then
          match env.readTxDisk txpos with
          | none => p.pprev
          | some txSpend =>
            if env.checkTransaction txSpend = false then p.pprev
            else if txSpend.vin.any
                (fun ti => ti.prevoutHash == hashTx && ti.prevoutN == nOutput) = false then
              p.pprev
            else f1
        else f1
    spentLoop env lvl p mbp hashTx rest (nOutput + 1) fork2

/-- The per-transaction body of the level-2+ checks (lines 656-739): if the
transaction has an index record, run the mislocation / duplicate test (level
3, or any recorded position differing from the containing block's) and the
level-4/6 spent-marker loop; the level-5 input loop runs whether or not the
record was found.  A transaction with no index record enters neither the
mislocation nor the spent-marker checks. -/
def checkTx (env : ValEnv) (lvl : Int) (p : CBlockIndex)
    (mbp : List ((Nat × Nat) × Nat)) (tx : CTransaction) (fork : Nat) : Nat :=
  let forkA :=
    match env.readTxIndex tx.txHash with
    | none => fork
    | some txindex =>
      let forkB :=
        if lvl > 2 ∨ p.nFile ≠ txindex.pos.nFile ∨ p.nBlockPos ≠ txindex.pos.nBlockPos then
          match env.readTxDisk txindex.pos with
          | none => p.pprev
          | some txFound => if txFound.txHash ≠ tx.txHash then p.pprev else fork
        else fork
      if lvl > 3 then spentLoop env lvl p mbp tx.txHash txindex.vSpent 0 forkB else forkB
  if lvl > 4 then
    tx.vin.foldl (fun f txin => if vinCheck env txin then p.pprev else f) forkA
  else forkA

/-- The validator's mutable state: `pindexFork` (as a hash, `0` = `NULL`),
the `mapBlockPos` position map, whether `block.ReadFromDisk` failed (the
`return error` of line 643), and how many blocks the walk has processed. -/
structure VState where
  pindexFork : Nat := 0
  mapBlockPos : List ((Nat × Nat) × Nat) := []
  aborted : Bool := false
  visited : Nat := 0
deriving DecidableEq

/-- One iteration of the walk body for a successfully read block (lines
644-740): level >= 1 re-runs `CheckBlock` (with signatures at level >= 7);
level >= 2 records the block's position in `mapBlockPos` and runs the
per-transaction checks.  Every failure assigns `pindexFork = pindex->pprev`. -/
def checkBlockStep (env : ValEnv) (lvl : Int) (p : CBlockIndex) (block : CBlock)
    (st : VState) : VState :=
  let fork0 :=
    if lvl > 0 ∧ env.checkBlock block (decide (lvl > 6)) = false then p.pprev
    else st.pindexFork
  if lvl > 1 then
    let mbp2 := ainsert st.mapBlockPos (p.nFile, p.nBlockPos) p.phashBlock
    let forkN := block.vtx.foldl (fun f tx => checkTx env lvl p mbp2 tx f) fork0
    { st with pindexFork := forkN, mapBlockPos := mbp2 }
  else
    { st with pindexFork := fork0 }

/-- The backward validation walk (lines 637-741) over the chain of visited
nodes (tip first, each later element the predecessor of the one before, as
produced by `pindex = pindex->pprev` while `pindex && pindex->pprev`): break
on a shutdown request or below the depth bound, abort the whole load when a
block body cannot be read, otherwise run the per-block checks and continue. -/
def validatorWalk (env : ValEnv) (lvl bestHeight depth : Int) (shutdown : Bool) :
    List CBlockIndex → VState → VState
  | [], st => st
  | p :: rest, st =>
    if shutdown = true ∨ p.nHeight < bestHeight - depth then st
    else
      match env.readBlock p.nFile p.nBlockPos with
      | none => { st with aborted := true }
      | some block =>
        let st2 := checkBlockStep env lvl p block st
        validatorWalk env lvl bestHeight depth shutdown rest
          { st2 with visited := st2.visited + 1 }

/-- Lines 742-751: after the walk, if a repair point was recorded and no
shutdown was requested, the rewind reads the repair point's block and hands
it to the external `SetBestChain`; the returned hash is the argument of that
call (`none` = no rewind). -/
def rewindTarget (st : VState) (shutdown : Bool) : Option Nat :=
  if st.pindexFork ≠ 0 ∧ shutdown = false then some st.pindexFork else none

/-- Whether the level-4/6 loop flags any spent marker, mirroring the
assignments of `spentLoop` as a Boolean. -/
def spentFailsB (env : ValEnv) (lvl : Int) (p : CBlockIndex)
    (mbp : List ((Nat × Nat) × Nat)) (hashTx : Nat) :
    List (Option TxPos) → Nat → Bool
  | [], _ => false
  | txpos? :: rest, nOutput =>
    (match txpos? with
     | none => false
     | some txpos =>
       if lvl > 5 then
         match env.readTxDisk txpos with
         | none => true
         | some txSpend =>
           (!env.checkTransaction txSpend) ||
           (!txSpend.vin.any
             (fun ti => ti.prevoutHash == hashTx && ti.prevoutN == nOutput)) ||
           (alookup mbp (txpos.nFile, txpos.nBlockPos)).isNone
       else (alookup mbp (txpos.nFile, txpos.nBlockPos)).isNone) ||
    spentFailsB env lvl p mbp hashTx rest (nOutput + 1)

/-- Whether the per-transaction checks flag the transaction, mirroring the
assignments of `checkTx` as a Boolean. -/
def txFailsB (env : ValEnv) (lvl : Int) (p : CBlockIndex)
    (mbp : List ((Nat × Nat) × Nat)) (tx : CTransaction) : Bool :=
  (match env.readTxIndex tx.txHash with
   | none => false
   | some txindex =>
     (if lvl > 2 ∨ p.nFile ≠ txindex.pos.nFile ∨ p.nBlockPos ≠ txindex.pos.nBlockPos then
        match env.readTxDisk txindex.pos with
        | none => true
        | some txFound => decide (txFound.txHash ≠ tx.txHash)
      else false) ||
     (decide (lvl > 3) && spentFailsB env lvl p mbp tx.txHash txindex.vSpent 0)) ||
  (decide (lvl > 4) && tx.vin.any (vinCheck env))

/-- Whether the per-block checks flag the block (given the `mapBlockPos`
already including this block's own position, as line 655 inserts it before
the transaction loop). -/
def stepFailsB (env : ValEnv) (lvl : Int) (p : CBlockIndex) (block : CBlock)
    (mbp2 : List ((Nat × Nat) × Nat)) : Bool :=
  (decide (lvl > 0) && !env.checkBlock block (decide (lvl > 6))) ||
  (decide (lvl > 1) && block.vtx.any (txFailsB env lvl p mbp2))

/-- The `mapBlockPos` evolution of one walk step. -/
def mbpAfter (lvl : Int) (p : CBlockIndex) (mbp : List ((Nat × Nat) × Nat)) :
    List ((Nat × Nat) × Nat) :=
  if lvl > 1 then ainsert mbp (p.nFile, p.nBlockPos) p.phashBlock else mbp

/-- The subsequence of walk nodes flagged by some enabled check, in walk
order, threading the same `mapBlockPos` evolution as the walk itself. -/
def walkFailures (env : ValEnv) (lvl : Int) :
    List CBlockIndex → List ((Nat × Nat) × Nat) → List CBlockIndex
  | [], _ => []
  | p :: rest, mbp =>
    match env.readBlock p.nFile p.nBlockPos with
    | none => []
    | some block =>
      let mbp2 := mbpAfter lvl p mbp
      (if stepFailsB env lvl p block mbp2 then [p] else []) ++
        walkFailures env lvl rest mbp2

/-- The per-node trust equation the trust phase is claimed to establish: the
node's cumulative trust equals its predecessor's cumulative trust (`0` when
it has none) plus its own intrinsic contribution, read off the graph `g`. -/
def trustEqnAt (gbt : CBlockIndex → Nat) (g : List (Nat × CBlockIndex)) (h : Nat) :
    Prop :=
  ∃ n, alookup g h = some n ∧
    (n.pprev = 0 → n.nChainTrust = gbt n) ∧
    (n.pprev ≠ 0 → ∃ m, alookup g n.pprev = some m ∧
      n.nChainTrust = m.nChainTrust + gbt n)

/-! ### Concrete instances used by witnesses -/

/-- A concrete persisted record used by the claim C2 witness. -/
def dW : CDiskBlockIndex :=
  { blockHash := 3, hashPrev := 2, nHeight := 9, nTime := 77, nBits := 17 }

/-- A concrete two-node chain graph used by the claim C3 witness. -/
def gW3 : List (Nat × CBlockIndex) :=
  [(1, { phashBlock := 1, nHeight := 0 }),
   (2, { phashBlock := 2, pprev := 1, nHeight := 1 })]

/-- Tip node of the two-block walk used by the claim C4 witness. -/
def pA4 : CBlockIndex := { phashBlock := 10, pprev := 9, nHeight := 5, nFile := 1 }

/-- Second (lower) node of the walk used by the claim C4 witness. -/
def pB4 : CBlockIndex := { phashBlock := 9, pprev := 8, nHeight := 4, nFile := 2 }

/-- Oracle environment for the claim C4 witness: every block body reads back
but fails the structural check. -/
def env4 : ValEnv :=
  { readBlock := fun f _ => if f = 1 ∨ f = 2 then some {} else none
    readTxIndex := fun _ => none
    readTxDisk := fun _ => none
    checkBlock := fun _ _ => false
    checkTransaction := fun _ => true }

/-- The block-7 node of the claim C5 scenario (predecessor is block 6). -/
def n7c : CBlockIndex :=
  { phashBlock := 7, pprev := 6, nHeight := 7, nFile := 1, nBlockPos := 70 }

/-- Oracle environment for the claim C5 scenario: the block reads back, passes
the structural check, and its only transaction has no index record. -/
def env5c : ValEnv :=
  { readBlock := fun f pos =>
      if f = 1 ∧ pos = 70 then some { vtx := [{ txHash := 100 }] } else none
    readTxIndex := fun _ => none
    readTxDisk := fun _ => none
    checkBlock := fun _ _ => true
    checkTransaction := fun _ => true }

/-- Node used by the claim C10 witness. -/
def p10 : CBlockIndex :=
  { phashBlock := 20, pprev := 19, nHeight := 3, nFile := 4, nBlockPos := 400 }

/-- A transaction-index record whose recorded position differs from the
containing block's position, used by the claim C10 witness. -/
def ti10 : CTxIndex := { pos := { nFile := 9, nBlockPos := 900 } }

/-- Oracle environment for the claim C10 witness: the mislocated
transaction's re-read from its recorded position fails. -/
def env10 : ValEnv :=
  { readBlock := fun _ _ => none
    readTxIndex := fun h => if h = 55 then some ti10 else none
    readTxDisk := fun _ => none
    checkBlock := fun _ _ => true
    checkTransaction := fun _ => true }

/-! ## General association-list lemmas -/

theorem alookup_eq_none_iff {α β : Type} [DecidableEq α] (g : List (α × β)) (k : α) :
    alookup g k = none ↔ k ∉ g.map Prod.fst := by
  induction g with
  | nil => simp [alookup]
  | cons e rest ih =>
    by_cases hk : k = e.1
    · subst hk; simp [alookup]
    · simp [alookup, hk, ih]

theorem alookup_mem {α β : Type} [DecidableEq α] {g : List (α × β)} {k : α} {v : β}
    (h : alookup g k = some v) : (k, v) ∈ g := by
  induction g with
  | nil => simp [alookup] at h
  | cons e rest ih =>
    by_cases hk : k = e.1
    · subst hk
      simp [alookup] at h
      subst h
      exact List.mem_cons_self _ _
    · simp [alookup, hk] at h
      exact List.mem_cons_of_mem _ (ih h)

theorem alookup_isSome_iff {α β : Type} [DecidableEq α] (g : List (α × β)) (k : α) :
    (alookup g k).isSome = true ↔ k ∈ g.map Prod.fst := by
  rcases h : alookup g k with _ | v
  · rw [alookup_eq_none_iff] at h; simp [h]
  · have := alookup_mem h
    simp only [Option.isSome_some, true_iff]
    exact List.mem_map.mpr ⟨(k, v), this, rfl⟩

theorem mem_alookup {α β : Type} [DecidableEq α] {g : List (α × β)} {k : α} {v : β}
    (hnd : (g.map Prod.fst).Nodup) (hm : (k, v) ∈ g) : alookup g k = some v := by
  induction g with
  | nil => simp at hm
  | cons e rest ih =>
    simp only [List.map_cons, List.nodup_cons] at hnd
    rcases List.mem_cons.mp hm with he | hr
    · subst he; simp [alookup]
    · have hk : k ≠ e.1 := by
        intro hk
        exact hnd.1 (List.mem_map.mpr ⟨(k, v), hr, hk⟩)
      simp [alookup, hk, ih hnd.2 hr]

theorem alookup_append_of_none {α β : Type} [DecidableEq α] {g1 : List (α × β)}
    (g2 : List (α × β)) {k : α} (h : alookup g1 k = none) :
    alookup (g1 ++ g2) k = alookup g2 k := by
  induction g1 with
  | nil => simp
  | cons e rest ih =>
    by_cases hk : k = e.1
    · subst hk; simp [alookup] at h
    · simp [alookup, hk] at h ⊢
      exact ih h

theorem alookup_append_of_some {α β : Type} [DecidableEq α] {g1 : List (α × β)}
    (g2 : List (α × β)) {k : α} {v : β} (h : alookup g1 k = some v) :
    alookup (g1 ++ g2) k = some v := by
  induction g1 with
  | nil => simp [alookup] at h
  | cons e rest ih =>
    by_cases hk : k = e.1
    · subst hk; simp [alookup] at h ⊢; exact h
    · simp [alookup, hk] at h ⊢
      exact ih h

theorem aset_map_fst {α β : Type} [DecidableEq α] (g : List (α × β)) (k : α) (w : β) :
    (aset g k w).map Prod.fst = g.map Prod.fst := by
  induction g with
  | nil => simp [aset]
  | cons e rest ih =>
    by_cases hk : k = e.1
    · subst hk; simp [aset]
    · simp [aset, hk, ih]

theorem alookup_aset_self {α β : Type} [DecidableEq α] {g : List (α × β)} {k : α}
    {v : β} (w : β) (h : alookup g k = some v) :
    alookup (aset g k w) k = some w := by
  induction g with
  | nil => simp [alookup] at h
  | cons e rest ih =>
    by_cases hk : k = e.1
    · subst hk; simp [alookup, aset]
    · simp [alookup, aset, hk] at h ⊢
      exact ih h

theorem alookup_aset_ne {α β : Type} [DecidableEq α] (g : List (α × β)) {key k : α}
    (w : β) (h : key ≠ k) : alookup (aset g k w) key = alookup g key := by
  induction g with
  | nil => simp [aset]
  | cons e rest ih =>
    by_cases hk : k = e.1
    · subst hk
      simp [aset, alookup, h]
    · by_cases hke : key = e.1
      · subst hke; simp [aset, alookup, hk]
      · simp [aset, alookup, hk, hke, ih]

/-! ## Claim C1 -/

/-- Claim C1 (code bug): the checkpoint selection of `LoadBlockIndex` never
applies the specified 250-block safety margin.  The guard
`TotalNumBlocks - 250 < 0` compares an unsigned value with `0` and cannot
fire, and the selection compares checkpoint heights against
`TotalNumBlocks` itself rather than `TotalNumBlocks - 250`.  Concretely,
with N = 100 <= 250 and checkpoint table {50}, the code selects height 50
where the specified selector requires 0 (no checkpoint qualifies). -/
theorem c1_margin_never_applied :
    bestCheckpoint 100 [(50, 777)] = 50 ∧ bestCheckpoint 100 [(50, 777)] ≠ 0 := by
  decide

/-! ## Claim C9 -/

theorem insertBlockIndex_of_some {g : List (Nat × CBlockIndex)} {h : Nat}
    {n : CBlockIndex} (hnz : h ≠ 0) (hs : alookup g h = some n) :
    insertBlockIndex g h = (g, h) := by
  unfold insertBlockIndex
  rw [if_neg hnz, hs]

theorem insertBlockIndex_of_none {g : List (Nat × CBlockIndex)} {h : Nat}
    (hnz : h ≠ 0) (hs : alookup g h = none) :
    insertBlockIndex g h = (g ++ [(h, { phashBlock := h })], h) := by
  unfold insertBlockIndex
  rw [if_neg hnz, hs]

/-- Claim C9: `InsertBlockIndex` returns the null node and leaves the graph
unchanged when called with the all-zero hash; for a nonzero hash a first
call appends exactly one entry (a default node whose `phashBlock` is its
key) and any later call with the same hash returns that node without
modifying the graph, so the graph never acquires two nodes for one hash. -/
theorem c9_insert_null_and_idempotent (g : List (Nat × CBlockIndex)) (h : Nat)
    (hnz : h ≠ 0) :
    insertBlockIndex g 0 = (g, 0) ∧
    (alookup g h = none →
      (insertBlockIndex g h).1 = g ++ [(h, { phashBlock := h })] ∧
      (insertBlockIndex g h).2 = h ∧
      alookup (insertBlockIndex g h).1 h = some { phashBlock := h } ∧
      insertBlockIndex (insertBlockIndex g h).1 h = ((insertBlockIndex g h).1, h)) ∧
    (∀ n, alookup g h = some n → insertBlockIndex g h = (g, h)) ∧
    ((g.map Prod.fst).Nodup → ((insertBlockIndex g h).1.map Prod.fst).Nodup) := by
  refine ⟨by simp [insertBlockIndex], ?_, ?_, ?_⟩
  · intro hnone
    have hfull := insertBlockIndex_of_none hnz hnone
    have h1 : (insertBlockIndex g h).1 = g ++ [(h, { phashBlock := h })] := by
      rw [hfull]
    have h2 : alookup (insertBlockIndex g h).1 h = some { phashBlock := h } := by
      rw [h1, alookup_append_of_none _ hnone]
      simp [alookup]
    refine ⟨h1, by rw [hfull], h2, ?_⟩
    rw [insertBlockIndex_of_some hnz h2]
  · intro n hsome
    exact insertBlockIndex_of_some hnz hsome
  · intro hnd
    by_cases hnone : alookup g h = none
    · have h1 : (insertBlockIndex g h).1 = g ++ [(h, { phashBlock := h })] := by
        rw [insertBlockIndex_of_none hnz hnone]
      rw [h1]
      have hmem : h ∉ g.map Prod.fst := (alookup_eq_none_iff g h).mp hnone
      simp [List.nodup_append, hnd, hmem]
    · rcases Option.ne_none_iff_exists.mp hnone with ⟨n, hn⟩
      rw [insertBlockIndex_of_some hnz hn.symm]
      exact hnd

/-- Witness for C9 at a concrete input. -/
theorem c9_witness :
    alookup (insertBlockIndex ([] : List (Nat × CBlockIndex)) 7).1 7 =
      some { phashBlock := 7 } :=
  ((c9_insert_null_and_idempotent [] 7 (by decide)).2.1 rfl).2.2.1

/-! ## Claim C6 -/

theorem scanStep_skip (needle : String) (r : ScanResult) (op : BatchOp)
    (h : op.key ≠ needle) : scanStep needle r op = r := by
  cases op with
  | put k v => simp [BatchOp.key] at h; simp [scanStep, h]
  | del k => simp [BatchOp.key] at h; simp [scanStep, h]

theorem foldl_scanStep_skip (needle : String) (l : List BatchOp) (r : ScanResult)
    (h : ∀ op ∈ l, op.key ≠ needle) : l.foldl (scanStep needle) r = r := by
  induction l generalizing r with
  | nil => rfl
  | cons op rest ih =>
    rw [List.foldl_cons, scanStep_skip needle r op (h op (by simp)),
      ih r fun o ho => h o (by simp [ho])]

theorem scanBatch_append (l1 l2 : List BatchOp) (k : String) :
    scanBatch (l1 ++ l2) k = l2.foldl (scanStep k) (scanBatch l1 k) := by
  simp [scanBatch, List.foldl_append]

/-- Claim C6: while a batch is open, a buffered `write(k, v)` makes a read
of `k` return `v`, a buffered erase of `k` makes the existence check return
`false` even though the underlying store persists `k`, and the most recent
batch entry for a key wins over both earlier batch entries (the arbitrary
`ops` before it) and the underlying store (the later operations `ops2`
touching only other keys do not disturb it). -/
theorem c6_batch_read_your_writes (ops ops2 : List BatchOp)
    (store : String → Option String) (k v w : String)
    (hops2 : ∀ op ∈ ops2, op.key ≠ k) (hstore : store k = some w) :
    dbRead (ops ++ (BatchOp.put k v :: ops2)) store k = some v ∧
    dbExists (ops ++ (BatchOp.del k :: ops2)) store k = false := by
  have hput : scanBatch (ops ++ (BatchOp.put k v :: ops2)) k =
      { foundEntry := true, deleted := false, foundValue := v } := by
    rw [scanBatch_append, List.foldl_cons]
    have : scanStep k (scanBatch ops k) (BatchOp.put k v) =
        { foundEntry := true, deleted := false, foundValue := v } := by
      simp [scanStep]
    rw [this, foldl_scanStep_skip k ops2 _ hops2]
  have hdel : (scanBatch (ops ++ (BatchOp.del k :: ops2)) k).foundEntry = true ∧
      (scanBatch (ops ++ (BatchOp.del k :: ops2)) k).deleted = true := by
    rw [scanBatch_append, List.foldl_cons]
    have : scanStep k (scanBatch ops k) (BatchOp.del k) =
        { foundEntry := true, deleted := true,
          foundValue := (scanBatch ops k).foundValue } := by
      simp [scanStep]
    rw [this, foldl_scanStep_skip k ops2 _ hops2]
    exact ⟨rfl, rfl⟩
  constructor
  · simp [dbRead, hput]
  · simp [dbExists, hdel.1, hdel.2]

/-- Witness for C6 at concrete inputs. -/
theorem c6_witness :
    dbRead ([BatchOp.put "k" "old"] ++ (BatchOp.put "k" "new" :: [BatchOp.put "other" "x"]))
      (fun q => if q = "k" then some "disk" else none) "k" = some "new" ∧
    dbExists ([BatchOp.put "k" "old"] ++ (BatchOp.del "k" :: [BatchOp.put "other" "x"]))
      (fun q => if q = "k" then some "disk" else none) "k" = false :=
  c6_batch_read_your_writes [BatchOp.put "k" "old"] [BatchOp.put "other" "x"]
    (fun q => if q = "k" then some "disk" else none) "k" "new" "disk"
    (by decide) (by decide)

/-! ## Claim C7 -/

/-- Claim C7 counterexample: with no genesis block found and an unresolvable
best-chain tip, `LoadBlockIndex` returns success (the empty-database early
exit of line 594), not the fatal error the claim requires for that case. -/
theorem c7_counterexample :
    resolveBestChain none false [] = LoadResult.ok none ∧
    resolveBestChain none false [] ≠ LoadResult.fatal "hashBestChain not loaded" := by
  decide

/-- Claim C7 amended: in the tip-resolution stage, `LoadBlockIndex` fails
fatally exactly when the tip cannot be resolved AND a genesis block WAS
found, or when the resolved tip hash is not a key of the graph; an
unresolvable tip with no genesis found returns success (fresh database). -/
theorem c7_fatal_characterization (readBest : Option Nat) (genesisFound : Bool)
    (g : List (Nat × CBlockIndex)) :
    (∃ m, resolveBestChain readBest genesisFound g = LoadResult.fatal m) ↔
      ((readBest = none ∧ genesisFound = true) ∨
        (∃ t, readBest = some t ∧ alookup g t = none)) := by
  cases readBest with
  | none => cases genesisFound <;> simp [resolveBestChain]
  | some tip =>
    rcases halo : alookup g tip with _ | n <;> simp [resolveBestChain, halo]

/-! ## Claim C8 -/

/-- Claim C8 counterexample: the counter is incremented before the tag test,
so a store holding one block-index record followed by one metadata record
("hashBestChain") is counted as N = 2, not the 1 the claim requires. -/
theorem c8_counterexample :
    countLoop false [("blockindex", 5), ("hashBestChain", 0)] = 2 ∧
    ([("blockindex", (5 : Nat)), ("hashBestChain", 0)].countP
      (fun e => e.1 == "blockindex")) = 1 ∧
    countLoop false [("blockindex", 5), ("hashBestChain", 0)] ≠
      ([("blockindex", (5 : Nat)), ("hashBestChain", 0)].countP
        (fun e => e.1 == "blockindex")) := by
  decide

/-- Claim C8 amended: with no shutdown requested, the count pass over the
post-seek key sequence (a contiguous run of block-index keys followed by
the rest of the key space) produces the number of block-index records, PLUS
ONE when a non-block-index key follows the run, because the counter is
incremented before the tag check that stops the loop. -/
theorem c8_count_including_terminator (bs ts : List (String × Nat))
    (hbs : ∀ e ∈ bs, e.1 = "blockindex")
    (hts : ∀ e ∈ ts, e.1 ≠ "blockindex") :
    countLoop false (bs ++ ts) =
      (bs ++ ts).countP (fun e => e.1 == "blockindex") + min ts.length 1 := by
  induction bs with
  | nil =>
    cases ts with
    | nil => simp [countLoop]
    | cons t ts2 =>
      have h1 : t.1 ≠ "blockindex" := hts t (by simp)
      have h0 : (t :: ts2).countP (fun e => e.1 == "blockindex") = 0 := by
        rw [List.countP_eq_zero]
        intro e he
        simpa using hts e he
      simp [countLoop, h1, h0]
  | cons b bs2 ih =>
    have hb : b.1 = "blockindex" := hbs b (by simp)
    have ihx := ih fun e he => hbs e (by simp [he])
    have hcl : countLoop false ((b :: bs2) ++ ts) = 1 + countLoop false (bs2 ++ ts) := by
      simp [countLoop, hb]
    rw [hcl, ihx, List.cons_append, List.countP_cons]
    simp [hb]
    omega

/-- Witness for C8 at concrete inputs. -/
theorem c8_witness :
    countLoop false ([("blockindex", 1)] ++ [("tx", 2)]) =
      ([("blockindex", (1 : Nat))] ++ [("tx", (2 : Nat))]).countP
        (fun e => e.1 == "blockindex") + min [("tx", (2 : Nat))].length 1 :=
  c8_count_including_terminator [("blockindex", 1)] [("tx", 2)]
    (by decide) (by decide)

/-! ## Claim C2 -/

theorem alookup_storeWrite (s : List (Nat × CDiskBlockIndex)) (d : CDiskBlockIndex)
    (k : Nat) :
    alookup (storeWrite s d) k = if k = d.blockHash then some d else alookup s k := by
  induction s with
  | nil =>
    by_cases hk : k = d.blockHash <;> simp [storeWrite, alookup, hk]
  | cons e rest ih =>
    rcases e with ⟨k0, v0⟩
    by_cases h1 : d.blockHash < k0
    · by_cases hk : k = d.blockHash <;> simp [storeWrite, h1, alookup, hk]
    · by_cases h2 : d.blockHash = k0
      · subst h2
        by_cases hk : k = d.blockHash <;>
          simp [storeWrite, h1, alookup, hk]
      · simp only [storeWrite, if_neg h1, if_neg h2]
        by_cases hk0 : k = k0
        · subst hk0
          have hk : ¬ k = d.blockHash := fun hc => h2 hc.symm
          simp [alookup, hk]
        · simp [alookup, hk0, ih]

theorem storeWrite_mem_cases (s : List (Nat × CDiskBlockIndex)) (d : CDiskBlockIndex) :
    ∀ e ∈ storeWrite s d, e = (d.blockHash, d) ∨ e ∈ s := by
  induction s with
  | nil => simp [storeWrite]
  | cons e0 rest ih =>
    rcases e0 with ⟨k0, v0⟩
    intro e he
    by_cases h1 : d.blockHash < k0
    · rw [storeWrite, if_pos h1] at he
      rcases List.mem_cons.mp he with he | he
      · exact Or.inl he
      · exact Or.inr he
    · by_cases h2 : d.blockHash = k0
      · rw [storeWrite, if_neg h1, if_pos h2] at he
        rcases List.mem_cons.mp he with he | he
        · exact Or.inl he
        · exact Or.inr (List.mem_cons_of_mem _ he)
      · rw [storeWrite, if_neg h1, if_neg h2] at he
        rcases List.mem_cons.mp he with he | he
        · exact Or.inr (he ▸ List.mem_cons_self _ _)
        · rcases ih e he with hc | hc
          · exact Or.inl hc
          · exact Or.inr (List.mem_cons_of_mem _ hc)

theorem storeWrite_keys_cases (s : List (Nat × CDiskBlockIndex)) (d : CDiskBlockIndex) :
    ∀ k ∈ (storeWrite s d).map Prod.fst, k = d.blockHash ∨ k ∈ s.map Prod.fst := by
  intro k hk
  rcases List.mem_map.mp hk with ⟨e, he, hek⟩
  rcases storeWrite_mem_cases s d e he with hc | hc
  · exact Or.inl (by rw [← hek, hc])
  · exact Or.inr (hek ▸ List.mem_map.mpr ⟨e, hc, rfl⟩)

theorem storeWrite_sorted (s : List (Nat × CDiskBlockIndex)) (d : CDiskBlockIndex)
    (hs : (s.map Prod.fst).Pairwise (· < ·)) :
    ((storeWrite s d).map Prod.fst).Pairwise (· < ·) := by
  induction s with
  | nil => simp [storeWrite]
  | cons e rest ih =>
    rcases e with ⟨k0, v0⟩
    simp only [List.map_cons, List.pairwise_cons] at hs
    by_cases h1 : d.blockHash < k0
    · simp only [storeWrite, if_pos h1, List.map_cons, List.pairwise_cons]
      refine ⟨?_, hs.1, hs.2⟩
      intro a ha
      rcases List.mem_cons.mp ha with ha | ha
      · exact ha ▸ h1
      · exact lt_trans h1 (hs.1 a ha)
    · by_cases h2 : d.blockHash = k0
      · simp only [storeWrite, if_neg h1, if_pos h2, List.map_cons, List.pairwise_cons]
        exact ⟨fun a ha => h2 ▸ hs.1 a ha, hs.2⟩
      · simp only [storeWrite, if_neg h1, if_neg h2, List.map_cons, List.pairwise_cons]
        refine ⟨?_, ih hs.2⟩
        intro a ha
        rcases storeWrite_keys_cases rest d a ha with hc | hc
        · subst hc
          exact lt_of_le_of_ne (Nat.le_of_not_lt h1) (Ne.symm h2)
        · exact hs.1 a hc

theorem mkStore_sorted (writes : List CDiskBlockIndex) :
    ((mkStore writes).map Prod.fst).Pairwise (· < ·) := by
  have hgen : ∀ (ws : List CDiskBlockIndex) (s : List (Nat × CDiskBlockIndex)),
      (s.map Prod.fst).Pairwise (· < ·) →
      ((ws.foldl storeWrite s).map Prod.fst).Pairwise (· < ·) := by
    intro ws
    induction ws with
    | nil => intro s hs; exact hs
    | cons d ws2 ih => intro s hs; exact ih _ (storeWrite_sorted s d hs)
  exact hgen writes [] (by simp)

theorem mkStore_nodup (writes : List CDiskBlockIndex) :
    ((mkStore writes).map Prod.fst).Nodup :=
  (mkStore_sorted writes).imp ne_of_lt

theorem storeWrite_entry_key (s : List (Nat × CDiskBlockIndex)) (d : CDiskBlockIndex)
    (hs : ∀ e ∈ s, e.1 = e.2.blockHash) :
    ∀ e ∈ storeWrite s d, e.1 = e.2.blockHash := by
  intro e he
  rcases storeWrite_mem_cases s d e he with hc | hc
  · rw [hc]
  · exact hs e hc

theorem storeWrite_entry_mem (s : List (Nat × CDiskBlockIndex)) (d : CDiskBlockIndex) :
    ∀ e ∈ storeWrite s d, e.2 = d ∨ e.2 ∈ s.map Prod.snd := by
  intro e he
  rcases storeWrite_mem_cases s d e he with hc | hc
  · exact Or.inl (by rw [hc])
  · exact Or.inr (List.mem_map.mpr ⟨e, hc, rfl⟩)

theorem mkStore_entry_key (writes : List CDiskBlockIndex) :
    ∀ e ∈ mkStore writes, e.1 = e.2.blockHash := by
  have hgen : ∀ (ws : List CDiskBlockIndex) (s : List (Nat × CDiskBlockIndex)),
      (∀ e ∈ s, e.1 = e.2.blockHash) →
      ∀ e ∈ ws.foldl storeWrite s, e.1 = e.2.blockHash := by
    intro ws
    induction ws with
    | nil => intro s hs; exact hs
    | cons d ws2 ih => intro s hs; exact ih _ (storeWrite_entry_key s d hs)
  exact hgen writes [] (by simp)

theorem mkStore_entry_mem (writes : List CDiskBlockIndex) :
    ∀ e ∈ mkStore writes, e.2 ∈ writes := by
  have hgen : ∀ (ws : List CDiskBlockIndex) (s : List (Nat × CDiskBlockIndex)),
      ∀ e ∈ ws.foldl storeWrite s, e.2 ∈ ws ∨ e.2 ∈ s.map Prod.snd := by
    intro ws
    induction ws with
    | nil => intro s e he; exact Or.inr (by simp [List.mem_map]; exact ⟨e.1, by simpa using he⟩)
    | cons d ws2 ih =>
      intro s e he
      rcases ih (storeWrite s d) e he with hc | hc
      · exact Or.inl (by simp [hc])
      · rcases List.mem_map.mp hc with ⟨e2, he2, hee⟩
        rcases storeWrite_entry_mem s d e2 he2 with hc2 | hc2
        · exact Or.inl (by simp [← hee, hc2])
        · exact Or.inr (hee ▸ hc2)
  intro e he
  rcases hgen writes [] e he with hc | hc
  · exact hc
  · simp at hc

theorem lastWrite_gen (h : Nat) (ws : List CDiskBlockIndex)
    (acc : Option CDiskBlockIndex) :
    ws.foldl (fun a d => if d.blockHash = h then some d else a) acc =
      match lastWrite ws h with
      | some d => some d
      | none => acc := by
  induction ws generalizing acc with
  | nil => simp [lastWrite]
  | cons d ws2 ih =>
    have hlw : lastWrite (d :: ws2) h =
        ws2.foldl (fun a e => if e.blockHash = h then some e else a)
          (if d.blockHash = h then some d else none) := by
      simp [lastWrite]
    rw [List.foldl_cons, ih, hlw, ih]
    rcases hl : lastWrite ws2 h with _ | e
    · by_cases hd : d.blockHash = h <;> simp [hd]
    · simp

theorem lastWrite_spec {writes : List CDiskBlockIndex} {h : Nat}
    {d : CDiskBlockIndex} (hl : lastWrite writes h = some d) :
    d.blockHash = h ∧ d ∈ writes := by
  induction writes with
  | nil => simp [lastWrite] at hl
  | cons e ws ih =>
    have hlw : lastWrite (e :: ws) h =
        ws.foldl (fun a x => if x.blockHash = h then some x else a)
          (if e.blockHash = h then some e else none) := by
      simp [lastWrite]
    rw [hlw, lastWrite_gen] at hl
    rcases hl2 : lastWrite ws h with _ | f
    · rw [hl2] at hl
      by_cases he : e.blockHash = h
      · simp [he] at hl
        subst hl
        exact ⟨he, by simp⟩
      · simp [he] at hl
    · rw [hl2] at hl
      simp at hl
      subst hl
      rcases ih hl2 with ⟨h1, h2⟩
      exact ⟨h1, by simp [h2]⟩

theorem alookup_mkStore (writes : List CDiskBlockIndex) (h : Nat) :
    alookup (mkStore writes) h = lastWrite writes h := by
  have hgen : ∀ (ws : List CDiskBlockIndex) (s : List (Nat × CDiskBlockIndex)),
      alookup (ws.foldl storeWrite s) h =
        match lastWrite ws h with
        | some d => some d
        | none => alookup s h := by
    intro ws
    induction ws with
    | nil => intro s; simp [lastWrite]
    | cons d ws2 ih =>
      intro s
      have hlw : lastWrite (d :: ws2) h =
          ws2.foldl (fun a e => if e.blockHash = h then some e else a)
            (if d.blockHash = h then some d else none) := by
        simp [lastWrite]
      rw [List.foldl_cons, ih, hlw, lastWrite_gen]
      rcases hl : lastWrite ws2 h with _ | e
      · rw [alookup_storeWrite]
        by_cases hd : d.blockHash = h
        · simp [hd]
        · have hd2 : h ≠ d.blockHash := fun hc => hd hc.symm
          simp [hd, hd2]
      · simp
  rw [mkStore, hgen writes []]
  rcases hl : lastWrite writes h with _ | e <;> simp [alookup]

theorem insertBlockIndex_snd {h : Nat} (g : List (Nat × CBlockIndex)) (hnz : h ≠ 0) :
    (insertBlockIndex g h).2 = h := by
  rcases hs : alookup g h with _ | n
  · rw [insertBlockIndex_of_none hnz hs]
  · rw [insertBlockIndex_of_some hnz hs]

theorem insertBlockIndex_preserve {g : List (Nat × CBlockIndex)} {k : Nat}
    {n : CBlockIndex} (h : Nat) (halo : alookup g k = some n) :
    alookup (insertBlockIndex g h).1 k = some n := by
  by_cases hz : h = 0
  · simp [insertBlockIndex, hz, halo]
  · rcases hs : alookup g h with _ | m
    · rw [insertBlockIndex_of_none hz hs]
      exact alookup_append_of_some _ halo
    · rw [insertBlockIndex_of_some hz hs]
      exact halo

theorem insertBlockIndex_nodup (g : List (Nat × CBlockIndex)) (h : Nat)
    (hnd : (g.map Prod.fst).Nodup) :
    ((insertBlockIndex g h).1.map Prod.fst).Nodup := by
  by_cases hz : h = 0
  · simpa [insertBlockIndex, hz] using hnd
  · rcases hs : alookup g h with _ | m
    · rw [insertBlockIndex_of_none hz hs]
      have hmem : h ∉ g.map Prod.fst := (alookup_eq_none_iff g h).mp hs
      simp [List.nodup_append, hnd, hmem]
    · rw [insertBlockIndex_of_some hz hs]
      exact hnd

theorem insertBlockIndex_self_isSome {h : Nat} (g : List (Nat × CBlockIndex))
    (hnz : h ≠ 0) : (alookup (insertBlockIndex g h).1 h).isSome = true := by
  rcases hs : alookup g h with _ | n
  · rw [insertBlockIndex_of_none hnz hs]
    rw [alookup_append_of_none _ hs]
    simp [alookup]
  · rw [insertBlockIndex_of_some hnz hs, hs]
    rfl

theorem setFields_fieldsMatch (n : CBlockIndex) (prevPtr nextPtr : Nat)
    (d : CDiskBlockIndex) : fieldsMatch (setFields n prevPtr nextPtr d) d := by
  simp [setFields, fieldsMatch]

theorem loadRecord_self (g : List (Nat × CBlockIndex)) (d : CDiskBlockIndex)
    (hnz : d.blockHash ≠ 0) :
    ∃ m, alookup (loadRecord g d) d.blockHash = some m ∧ fieldsMatch m d := by
  simp only [loadRecord]
  have h1 : (insertBlockIndex g d.blockHash).2 = d.blockHash :=
    insertBlockIndex_snd g hnz
  rcases hs1 : alookup (insertBlockIndex g d.blockHash).1 d.blockHash with _ | n1
  · have := insertBlockIndex_self_isSome g hnz
    rw [hs1] at this
    simp at this
  · have hs2 : alookup (insertBlockIndex (insertBlockIndex g d.blockHash).1 d.hashPrev).1
        d.blockHash = some n1 := insertBlockIndex_preserve _ hs1
    have hs3 : alookup (insertBlockIndex (insertBlockIndex
        (insertBlockIndex g d.blockHash).1 d.hashPrev).1 d.hashNext).1 d.blockHash =
        some n1 := insertBlockIndex_preserve _ hs2
    rw [h1, hs3]
    refine ⟨_, alookup_aset_self _ hs3, setFields_fieldsMatch _ _ _ _⟩

theorem loadRecord_preserve {g : List (Nat × CBlockIndex)} {k : Nat}
    {n : CBlockIndex} {d : CDiskBlockIndex} (hnz : d.blockHash ≠ 0)
    (hk : k ≠ d.blockHash) (halo : alookup g k = some n) :
    alookup (loadRecord g d) k = some n := by
  simp only [loadRecord]
  have h1 : (insertBlockIndex g d.blockHash).2 = d.blockHash :=
    insertBlockIndex_snd g hnz
  have hk3 : alookup (insertBlockIndex (insertBlockIndex
      (insertBlockIndex g d.blockHash).1 d.hashPrev).1 d.hashNext).1 k = some n :=
    insertBlockIndex_preserve _ (insertBlockIndex_preserve _
      (insertBlockIndex_preserve _ halo))
  rw [h1]
  rcases hs : alookup (insertBlockIndex (insertBlockIndex
      (insertBlockIndex g d.blockHash).1 d.hashPrev).1 d.hashNext).1 d.blockHash with _ | m
  · exact hk3
  · rw [alookup_aset_ne _ _ hk]
    exact hk3

theorem loadRecord_nodup (g : List (Nat × CBlockIndex)) (d : CDiskBlockIndex)
    (hnd : (g.map Prod.fst).Nodup) :
    ((loadRecord g d).map Prod.fst).Nodup := by
  simp only [loadRecord]
  have hnd3 : (((insertBlockIndex (insertBlockIndex
      (insertBlockIndex g d.blockHash).1 d.hashPrev).1 d.hashNext).1).map
        Prod.fst).Nodup :=
    insertBlockIndex_nodup _ _ (insertBlockIndex_nodup _ _
      (insertBlockIndex_nodup _ _ hnd))
  rcases hs : alookup (insertBlockIndex (insertBlockIndex
      (insertBlockIndex g d.blockHash).1 d.hashPrev).1 d.hashNext).1
      (insertBlockIndex g d.blockHash).2 with _ | m
  · exact hnd3
  · rw [aset_map_fst]
    exact hnd3

theorem loadFold_preserve (rs : List CDiskBlockIndex) (g : List (Nat × CBlockIndex))
    (k : Nat) (n : CBlockIndex) (hnz : ∀ d ∈ rs, d.blockHash ≠ 0)
    (hne : ∀ d ∈ rs, d.blockHash ≠ k) (halo : alookup g k = some n) :
    alookup (rs.foldl loadRecord g) k = some n := by
  induction rs generalizing g with
  | nil => exact halo
  | cons r rs2 ih =>
    rw [List.foldl_cons]
    exact ih _ (fun d hd => hnz d (by simp [hd])) (fun d hd => hne d (by simp [hd]))
      (loadRecord_preserve (hnz r (by simp)) (fun hc => hne r (by simp) hc.symm) halo)

theorem loadFold_nodup (rs : List CDiskBlockIndex) (g : List (Nat × CBlockIndex))
    (hnd : (g.map Prod.fst).Nodup) :
    ((rs.foldl loadRecord g).map Prod.fst).Nodup := by
  induction rs generalizing g with
  | nil => exact hnd
  | cons r rs2 ih => exact ih _ (loadRecord_nodup g r hnd)

theorem loadFold_spec (rs : List CDiskBlockIndex) (g : List (Nat × CBlockIndex))
    (hnz : ∀ d ∈ rs, d.blockHash ≠ 0)
    (hnd : (rs.map CDiskBlockIndex.blockHash).Nodup) :
    ∀ d ∈ rs, ∃ m, alookup (rs.foldl loadRecord g) d.blockHash = some m ∧
      fieldsMatch m d := by
  induction rs generalizing g with
  | nil => simp
  | cons r rs2 ih =>
    intro d hd
    simp only [List.map_cons, List.nodup_cons] at hnd
    rcases List.mem_cons.mp hd with hd | hd
    · subst hd
      rcases loadRecord_self g d (hnz d (by simp)) with ⟨m, hm, hfm⟩
      refine ⟨m, ?_, hfm⟩
      rw [List.foldl_cons]
      exact loadFold_preserve rs2 _ _ _ (fun e he => hnz e (by simp [he]))
        (fun e he => fun hc => hnd.1 (hc ▸ List.mem_map.mpr ⟨e, he, rfl⟩)) hm
    · rw [List.foldl_cons]
      exact ih _ (fun e he => hnz e (by simp [he])) hnd.2 d hd

theorem collectRecords_false (s : List (Nat × CDiskBlockIndex)) :
    collectRecords false s = s.map Prod.snd := by
  induction s with
  | nil => rfl
  | cons e rest ih => simp [collectRecords, ih]

/-- Claim C2: for every sequence of `WriteBlockIndex` calls followed by a
`LoadBlockIndex` load pass into an empty graph (all written records carrying
a nonzero hash, since a zero hash would make the C++ write through a null
pointer), every hash present in the store ends up as exactly one node of
`mapBlockIndex`, and that node's persisted fields equal those of the last
record written for that hash. -/
theorem c2_load_reflects_last_write (writes : List CDiskBlockIndex)
    (hnz : ∀ d ∈ writes, d.blockHash ≠ 0) (h : Nat) (d : CDiskBlockIndex)
    (hlast : lastWrite writes h = some d) :
    ∃ n, alookup (loadPass (mkStore writes)) h = some n ∧ fieldsMatch n d ∧
      ((loadPass (mkStore writes)).map Prod.fst).count h = 1 := by
  rcases lastWrite_spec hlast with ⟨hbh, hdin⟩
  have hstore : alookup (mkStore writes) h = some d := by
    rw [alookup_mkStore, hlast]
  have hdmem : (h, d) ∈ mkStore writes := alookup_mem hstore
  have hrs : loadPass (mkStore writes) =
      ((mkStore writes).map Prod.snd).foldl loadRecord [] := by
    rw [loadPass, collectRecords_false]
  have hrsnz : ∀ e ∈ (mkStore writes).map Prod.snd, e.blockHash ≠ 0 := by
    intro e he
    rcases List.mem_map.mp he with ⟨e2, he2, hee⟩
    exact hee ▸ hnz _ (mkStore_entry_mem writes e2 he2)
  have hmapeq : ((mkStore writes).map Prod.snd).map CDiskBlockIndex.blockHash =
      (mkStore writes).map Prod.fst := by
    rw [List.map_map]
    have : ∀ e ∈ mkStore writes, (CDiskBlockIndex.blockHash ∘ Prod.snd) e =
        Prod.fst e := by
      intro e he
      exact (mkStore_entry_key writes e he).symm
    exact List.map_congr_left this
  have hrsnd : (((mkStore writes).map Prod.snd).map CDiskBlockIndex.blockHash).Nodup := by
    rw [hmapeq]; exact mkStore_nodup writes
  have hdrs : d ∈ (mkStore writes).map Prod.snd :=
    List.mem_map.mpr ⟨(h, d), hdmem, rfl⟩
  rcases loadFold_spec _ [] hrsnz hrsnd d hdrs with ⟨m, hm, hfm⟩
  rw [hbh] at hm
  refine ⟨m, by rw [hrs]; exact hm, hfm, ?_⟩
  have hnodup : ((loadPass (mkStore writes)).map Prod.fst).Nodup := by
    rw [hrs]
    exact loadFold_nodup _ [] (by simp)
  have hmem : h ∈ (loadPass (mkStore writes)).map Prod.fst := by
    rw [← alookup_isSome_iff]
    rw [hrs, hm]
    rfl
  exact List.count_eq_one_of_mem hnodup hmem

/-- Witness for C2 at concrete inputs. -/
theorem c2_witness :
    ∃ n, alookup (loadPass (mkStore [dW])) 3 = some n ∧ fieldsMatch n dW ∧
      ((loadPass (mkStore [dW])).map Prod.fst).count 3 = 1 :=
  c2_load_reflects_last_write [dW] (by decide) 3 dW (by decide)

/-! ## Claim C3 -/

theorem alookup_aset_map {α β : Type} [DecidableEq α] (g : List (α × β)) (k : α)
    (w : β) : alookup (aset g k w) k = (alookup g k).map (fun _ => w) := by
  induction g with
  | nil => simp [aset, alookup]
  | cons e rest ih =>
    by_cases hk : k = e.1
    · subst hk; simp [aset, alookup]
    · simp [aset, alookup, hk, ih]

theorem alookup_aset_isSome {α β : Type} [DecidableEq α] (g : List (α × β))
    (k x : α) (w : β) :
    (alookup (aset g k w) x).isSome = (alookup g x).isSome := by
  by_cases hx : x = k
  · subst hx
    rw [alookup_aset_map]
    rcases alookup g x with _ | v <;> rfl
  · rw [alookup_aset_ne _ _ hx]

theorem insertByHeight_mem (x : Int × Nat) (l : List (Int × Nat)) (z : Int × Nat) :
    z ∈ insertByHeight x l ↔ z = x ∨ z ∈ l := by
  induction l with
  | nil => simp [insertByHeight]
  | cons y ys ih =>
    by_cases h : x.1 ≤ y.1
    · simp only [insertByHeight, if_pos h, List.mem_cons]
    · simp only [insertByHeight, if_neg h, List.mem_cons, ih]
      tauto

theorem insertByHeight_pairwise (x : Int × Nat) (l : List (Int × Nat))
    (hl : l.Pairwise (fun a b => a.1 ≤ b.1)) :
    (insertByHeight x l).Pairwise (fun a b => a.1 ≤ b.1) := by
  induction l with
  | nil => simp [insertByHeight]
  | cons y ys ih =>
    rw [List.pairwise_cons] at hl
    by_cases h : x.1 ≤ y.1
    · simp only [insertByHeight, if_pos h]
      refine List.Pairwise.cons ?_ (List.Pairwise.cons hl.1 hl.2)
      intro z hz
      rcases List.mem_cons.mp hz with hz | hz
      · exact hz ▸ h
      · exact le_trans h (hl.1 z hz)
    · simp only [insertByHeight, if_neg h]
      refine List.Pairwise.cons ?_ (ih hl.2)
      intro z hz
      rcases (insertByHeight_mem x ys z).mp hz with hz | hz
      · exact hz ▸ le_of_not_le h
      · exact hl.1 z hz

theorem sortByHeight_pairwise (l : List (Int × Nat)) :
    (sortByHeight l).Pairwise (fun a b => a.1 ≤ b.1) := by
  induction l with
  | nil => simp [sortByHeight]
  | cons y ys ih => exact insertByHeight_pairwise y _ ih

theorem insertByHeight_perm (x : Int × Nat) (l : List (Int × Nat)) :
    List.Perm (insertByHeight x l) (x :: l) := by
  induction l with
  | nil => simp [insertByHeight]
  | cons y ys ih =>
    by_cases h : x.1 ≤ y.1
    · simp [insertByHeight, h]
    · simp only [insertByHeight, if_neg h]
      exact List.Perm.trans (List.Perm.cons y ih) (List.Perm.swap x y ys)

theorem sortByHeight_perm (l : List (Int × Nat)) :
    List.Perm (sortByHeight l) l := by
  induction l with
  | nil => simp [sortByHeight]
  | cons y ys ih =>
    exact List.Perm.trans (insertByHeight_perm y _) (List.Perm.cons y ih)

theorem trustStep_of_some {gbt : CBlockIndex → Nat} {g : List (Nat × CBlockIndex)}
    {p : Int × Nat} {n : CBlockIndex} (hs : alookup g p.2 = some n) :
    trustStep gbt g p = aset g p.2
      { n with nChainTrust :=
          (if n.pprev = 0 then 0
           else
             match alookup g n.pprev with
             | some m => m.nChainTrust
             | none => 0) + gbt n } := by
  simp only [trustStep, hs]

theorem eraseTrust_set (n : CBlockIndex) (t : Nat) :
    eraseTrust { n with nChainTrust := t } = eraseTrust n := rfl

/-- The workhorse induction for claim C3: folding the trust step over a
height-ascending worklist establishes the trust equation at every graph key,
given that keys already outside the worklist satisfy it with a
predecessor also outside the worklist. -/
theorem trustFold_spec (gbt : CBlockIndex → Nat) (g0 : List (Nat × CBlockIndex))
    (hgbt : ∀ n t, gbt { n with nChainTrust := t } = gbt n)
    (hclosure : ∀ h n, alookup g0 h = some n → n.pprev ≠ 0 →
      ∃ m, alookup g0 n.pprev = some m ∧ m.nHeight < n.nHeight) :
    ∀ (todo : List (Int × Nat)) (g1 : List (Nat × CBlockIndex)),
      (∀ h n, alookup g1 h = some n → ∃ n0, alookup g0 h = some n0 ∧
        eraseTrust n = eraseTrust n0) →
      todo.Pairwise (fun a b => a.1 ≤ b.1) →
      (todo.map Prod.snd).Nodup →
      (∀ p ∈ todo, ∃ n0, alookup g0 p.2 = some n0 ∧ n0.nHeight = p.1) →
      (∀ p ∈ todo, alookup g1 p.2 = alookup g0 p.2) →
      (∀ h, (alookup g0 h).isSome = true → h ∉ todo.map Prod.snd →
        trustEqnAt gbt g1 h ∧
        (∀ n, alookup g1 h = some n → n.pprev ≠ 0 → n.pprev ∉ todo.map Prod.snd)) →
      (∀ h, (alookup g0 h).isSome = true →
        trustEqnAt gbt (todo.foldl (trustStep gbt) g1) h) ∧
      (∀ h n, alookup (todo.foldl (trustStep gbt) g1) h = some n →
        ∃ n0, alookup g0 h = some n0 ∧ eraseTrust n = eraseTrust n0) := by
  intro todo
  induction todo with
  | nil =>
    intro g1 inv2 _ _ _ _ inv7
    exact ⟨fun h hs => (inv7 h hs (by simp)).1, inv2⟩
  | cons p rest ih =>
    intro g1 inv2 inv3 inv4 inv5 inv6 inv7
    rcases inv5 p (by simp) with ⟨n0, hn0, hh0⟩
    have hg1k : alookup g1 p.2 = some n0 := by rw [inv6 p (by simp), hn0]
    have hrest_le : ∀ q ∈ rest, p.1 ≤ q.1 := (List.pairwise_cons.mp inv3).1
    have hknotin : p.2 ∉ rest.map Prod.snd := by
      have := inv4
      simp only [List.map_cons, List.nodup_cons] at this
      exact this.1
    set prevTrust : Nat :=
      (if n0.pprev = 0 then 0
       else
         match alookup g1 n0.pprev with
         | some m => m.nChainTrust
         | none => 0) with hprevTrust
    set nk : CBlockIndex := { n0 with nChainTrust := prevTrust + gbt n0 } with hnk
    have hstep : trustStep gbt g1 p = aset g1 p.2 nk := trustStep_of_some hg1k
    have hg2k : alookup (aset g1 p.2 nk) p.2 = some nk := alookup_aset_self _ hg1k
    have hg2ne : ∀ x, x ≠ p.2 → alookup (aset g1 p.2 nk) x = alookup g1 x :=
      fun x hx => alookup_aset_ne _ _ hx
    -- Facts about the predecessor of the node being processed.
    have hprev : n0.pprev ≠ 0 →
        ∃ mp, alookup g1 n0.pprev = some mp ∧ prevTrust = mp.nChainTrust ∧
          n0.pprev ≠ p.2 ∧ n0.pprev ∉ rest.map Prod.snd := by
      intro hp
      rcases hclosure p.2 n0 hn0 hp with ⟨m0, hm0, hlt⟩
      have hne_k : n0.pprev ≠ p.2 := by
        intro hc
        rw [hc, hn0] at hm0
        injection hm0 with hm0
        rw [hm0] at hlt
        exact lt_irrefl _ hlt
      have hnotin_rest : n0.pprev ∉ rest.map Prod.snd := by
        intro hc
        rcases List.mem_map.mp hc with ⟨q, hq, hq2⟩
        rcases inv5 q (by simp [hq]) with ⟨mq, hmq, hqh⟩
        rw [hq2, hm0] at hmq
        injection hmq with hmq
        have h1 : p.1 ≤ q.1 := hrest_le q hq
        have h2 : n0.nHeight ≤ m0.nHeight := by
          rw [hh0, hmq, hqh]
          exact h1
        exact absurd (lt_of_lt_of_le hlt h2) (lt_irrefl _)
      have hnotin : n0.pprev ∉ (p :: rest).map Prod.snd := by
        simp only [List.map_cons, List.mem_cons]
        rintro (hc | hc)
        · exact hne_k hc
        · exact hnotin_rest hc
      rcases inv7 n0.pprev (by rw [hm0]; rfl) hnotin with ⟨⟨mp, hmp, _⟩, _⟩
      refine ⟨mp, hmp, ?_, hne_k, hnotin_rest⟩
      rw [hprevTrust, if_neg hp, hmp]
    -- Invariants for the tail.
    have inv2b : ∀ h n, alookup (aset g1 p.2 nk) h = some n →
        ∃ n0b, alookup g0 h = some n0b ∧ eraseTrust n = eraseTrust n0b := by
      intro h n hl
      by_cases hh : h = p.2
      · subst hh
        rw [hg2k] at hl
        injection hl with hl
        subst hl
        rcases inv2 _ _ hg1k with ⟨n00, hn00, he⟩
        exact ⟨n00, hn00, by rw [hnk, eraseTrust_set]; exact he⟩
      · rw [hg2ne h hh] at hl
        exact inv2 h n hl
    have inv5b : ∀ q ∈ rest, ∃ n0b, alookup g0 q.2 = some n0b ∧ n0b.nHeight = q.1 :=
      fun q hq => inv5 q (by simp [hq])
    have inv6b : ∀ q ∈ rest, alookup (aset g1 p.2 nk) q.2 = alookup g0 q.2 := by
      intro q hq
      have hqk : q.2 ≠ p.2 := by
        intro hc
        exact hknotin (hc ▸ List.mem_map.mpr ⟨q, hq, rfl⟩)
      rw [hg2ne _ hqk]
      exact inv6 q (by simp [hq])
    have inv7b : ∀ h, (alookup g0 h).isSome = true → h ∉ rest.map Prod.snd →
        trustEqnAt gbt (aset g1 p.2 nk) h ∧
        (∀ n, alookup (aset g1 p.2 nk) h = some n → n.pprev ≠ 0 →
          n.pprev ∉ rest.map Prod.snd) := by
      intro h hsome hnotin
      by_cases hh : h = p.2
      · subst hh
        have hnkpprev : nk.pprev = n0.pprev := rfl
        have hgbtnk : gbt nk = gbt n0 := hgbt n0 _
        constructor
        · refine ⟨nk, hg2k, ?_, ?_⟩
          · intro hp0
            rw [hnkpprev] at hp0
            show prevTrust + gbt n0 = gbt nk
            rw [hprevTrust, if_pos hp0, hgbtnk, Nat.zero_add]
          · intro hpn
            rw [hnkpprev] at hpn
            rcases hprev hpn with ⟨mp, hmp, hpt, hne_k, _⟩
            refine ⟨mp, ?_, ?_⟩
            · rw [hnkpprev, hg2ne _ hne_k]
              exact hmp
            · show prevTrust + gbt n0 = mp.nChainTrust + gbt nk
              rw [hpt, hgbtnk]
        · intro n hn hpn
          rw [hg2k] at hn
          injection hn with hn
          subst hn
          rw [hnkpprev] at hpn ⊢
          rcases hprev hpn with ⟨mp, _, _, _, hnotin2⟩
          exact hnotin2
      · have hnotin2 : h ∉ (p :: rest).map Prod.snd := by
          simp only [List.map_cons, List.mem_cons]
          rintro (hc | hc)
          · exact hh hc
          · exact hnotin hc
        rcases inv7 h hsome hnotin2 with ⟨⟨n, hn, hp0, hpn⟩, hpd⟩
        constructor
        · refine ⟨n, by rw [hg2ne h hh]; exact hn, hp0, ?_⟩
          intro hp
          rcases hpn hp with ⟨m, hm, ht⟩
          have hpk : n.pprev ≠ p.2 := by
            intro hc
            exact (hpd n hn hp) (by simp [hc])
          exact ⟨m, by rw [hg2ne _ hpk]; exact hm, ht⟩
        · intro n2 hn2 hp2
          rw [hg2ne h hh] at hn2
          have := hpd n2 hn2 hp2
          intro hc
          exact this (by simp [List.mem_cons, hc])
    have inv3b := (List.pairwise_cons.mp inv3).2
    have inv4b : (rest.map Prod.snd).Nodup := by
      have := inv4
      simp only [List.map_cons, List.nodup_cons] at this
      exact this.2
    have hfold : (p :: rest).foldl (trustStep gbt) g1 =
        rest.foldl (trustStep gbt) (aset g1 p.2 nk) := by
      rw [List.foldl_cons, hstep]
    rw [hfold]
    exact ih (aset g1 p.2 nk) inv2b inv3b inv4b inv5b inv6b inv7b

/-- Claim C3: after the trust phase, every node's cumulative trust equals its
predecessor's cumulative trust (`0` if it has none) plus its own intrinsic
contribution, and in particular is at least its predecessor's trust, under
the precondition that every non-genesis node's height strictly exceeds its
predecessor's height (`gbt` is the intrinsic contribution, which does not
depend on the accumulated-trust field). -/
theorem c3_trust_accumulation (gbt : CBlockIndex → Nat)
    (g : List (Nat × CBlockIndex)) (hnodup : (g.map Prod.fst).Nodup)
    (hclosure : ∀ e ∈ g, e.2.pprev ≠ 0 →
      ∃ e2 ∈ g, e2.1 = e.2.pprev ∧ e2.2.nHeight < e.2.nHeight)
    (hgbt : ∀ n t, gbt { n with nChainTrust := t } = gbt n) :
    ∀ e ∈ g, ∃ n, alookup (trustPhase gbt g) e.1 = some n ∧
      eraseTrust n = eraseTrust e.2 ∧
      (n.pprev = 0 → n.nChainTrust = gbt n) ∧
      (n.pprev ≠ 0 → ∃ m, alookup (trustPhase gbt g) n.pprev = some m ∧
        n.nChainTrust = m.nChainTrust + gbt n ∧ m.nChainTrust ≤ n.nChainTrust) := by
  have hclosure2 : ∀ h n, alookup g h = some n → n.pprev ≠ 0 →
      ∃ m, alookup g n.pprev = some m ∧ m.nHeight < n.nHeight := by
    intro h n hl hp
    rcases hclosure (h, n) (alookup_mem hl) hp with ⟨e2, he2, hk, hlt⟩
    exact ⟨e2.2, by rw [← hk]; exact mem_alookup hnodup (by rcases e2 with ⟨a, b⟩; exact he2), hlt⟩
  set pairs : List (Int × Nat) := g.map (fun e => (e.2.nHeight, e.1)) with hpairs
  have hperm : List.Perm (sortByHeight pairs) pairs := sortByHeight_perm pairs
  have hpairssnd : pairs.map Prod.snd = g.map Prod.fst := by
    rw [hpairs, List.map_map]
    rfl
  have hsortsnd : List.Perm ((sortByHeight pairs).map Prod.snd) (g.map Prod.fst) := by
    rw [← hpairssnd]
    exact hperm.map Prod.snd
  have inv4 : ((sortByHeight pairs).map Prod.snd).Nodup :=
    (hsortsnd.nodup_iff).mpr hnodup
  have inv5 : ∀ p ∈ sortByHeight pairs,
      ∃ n0, alookup g p.2 = some n0 ∧ n0.nHeight = p.1 := by
    intro p hp
    have hp2 : p ∈ pairs := hperm.mem_iff.mp hp
    rcases List.mem_map.mp hp2 with ⟨e, he, hpe⟩
    refine ⟨e.2, ?_, by rw [← hpe]⟩
    have : p.2 = e.1 := by rw [← hpe]
    rw [this]
    exact mem_alookup hnodup (by rcases e with ⟨a, b⟩; exact he)
  have inv7 : ∀ h, (alookup g h).isSome = true →
      h ∉ (sortByHeight pairs).map Prod.snd →
      trustEqnAt gbt g h ∧
      (∀ n, alookup g h = some n → n.pprev ≠ 0 →
        n.pprev ∉ (sortByHeight pairs).map Prod.snd) := by
    intro h hsome hnotin
    exfalso
    apply hnotin
    rw [List.Perm.mem_iff hsortsnd]
    exact (alookup_isSome_iff g h).mp hsome
  rcases trustFold_spec gbt g hgbt hclosure2 (sortByHeight pairs) g
      (fun h n hl => ⟨n, hl, rfl⟩) (sortByHeight_pairwise pairs) inv4 inv5
      (fun p _ => rfl) inv7 with ⟨hEqn, hErase⟩
  intro e he
  have hle : alookup g e.1 = some e.2 :=
    mem_alookup hnodup (by rcases e with ⟨a, b⟩; exact he)
  have hfinal : trustEqnAt gbt (trustPhase gbt g) e.1 := by
    have := hEqn e.1 (by rw [hle]; rfl)
    exact this
  rcases hfinal with ⟨n, hn, hp0, hpn⟩
  have herase : eraseTrust n = eraseTrust e.2 := by
    rcases hErase e.1 n hn with ⟨n0, hn0, he2⟩
    rw [hle] at hn0
    injection hn0 with hn0
    rw [he2, hn0]
  refine ⟨n, hn, herase, hp0, ?_⟩
  intro hp
  rcases hpn hp with ⟨m, hm, ht⟩
  exact ⟨m, hm, ht, by rw [ht]; exact Nat.le_add_right _ _⟩

/-- Witness for C3 at a concrete two-node chain, instantiated at node 2. -/
theorem c3_witness :
    ∃ n, alookup (trustPhase (fun _ => 5) gW3) 2 = some n ∧
      eraseTrust n = eraseTrust { phashBlock := 2, pprev := 1, nHeight := 1 } ∧
      (n.pprev = 0 → n.nChainTrust = 5) ∧
      (n.pprev ≠ 0 → ∃ m, alookup (trustPhase (fun _ => 5) gW3) n.pprev = some m ∧
        n.nChainTrust = m.nChainTrust + 5 ∧ m.nChainTrust ≤ n.nChainTrust) :=
  c3_trust_accumulation (fun _ => 5) gW3 (by decide) (by decide) (fun _ _ => rfl)
    (2, { phashBlock := 2, pprev := 1, nHeight := 1 }) (by decide)

/-! ## Claims C4, C5, C10 : the backward validation walk -/

theorem foldl_flag {α : Type} (g : Nat → α → Nat) (q : α → Bool) (c : Nat)
    (hg : ∀ a x, g a x = if q x then c else a) :
    ∀ (l : List α) (a : Nat), l.foldl g a = if l.any q then c else a := by
  intro l
  induction l with
  | nil => intro a; simp
  | cons x xs ih =>
    intro a
    rw [List.foldl_cons, hg a x, ih]
    cases hq : q x <;> cases hxs : xs.any q <;> simp [hq, hxs]

theorem spentLoop_eq (env : ValEnv) (lvl : Int) (p : CBlockIndex)
    (mbp : List ((Nat × Nat) × Nat)) (hashTx : Nat) :
    ∀ (l : List (Option TxPos)) (nOutput fork : Nat),
      spentLoop env lvl p mbp hashTx l nOutput fork =
        if spentFailsB env lvl p mbp hashTx l nOutput then p.pprev else fork := by
  intro l
  induction l with
  | nil => intro nOutput fork; rfl
  | cons txpos? rest ih =>
    intro nOutput fork
    rcases txpos? with _ | txpos
    · simp only [spentLoop, spentFailsB, Bool.false_or]
      exact ih _ _
    · by_cases h5 : lvl > 5
      · rcases henv : env.readTxDisk txpos with _ | txSpend
        · simp only [spentLoop, spentFailsB, if_pos h5, henv, ih, Bool.true_or]
          simp
        · cases hchk : env.checkTransaction txSpend
          · simp only [spentLoop, spentFailsB, if_pos h5, henv, hchk, ih]
            simp
          · cases hany : txSpend.vin.any
                (fun ti => ti.prevoutHash == hashTx && ti.prevoutN == nOutput)
            · simp only [spentLoop, spentFailsB, if_pos h5, henv, hchk, hany, ih]
              simp
            · cases hnone : (alookup mbp (txpos.nFile, txpos.nBlockPos)).isNone
              · simp only [spentLoop, spentFailsB, if_pos h5, henv, hchk, hany,
                  hnone, ih]
                simp
              · simp only [spentLoop, spentFailsB, if_pos h5, henv, hchk, hany,
                  hnone, ih]
                simp
      · cases hnone : (alookup mbp (txpos.nFile, txpos.nBlockPos)).isNone
        · simp only [spentLoop, spentFailsB, if_neg h5, hnone, ih]
          simp
        · simp only [spentLoop, spentFailsB, if_neg h5, hnone, ih]
          simp

theorem vinFold_eq (env : ValEnv) (p : CBlockIndex) (l : List TxIn) (a : Nat) :
    l.foldl (fun f txin => if vinCheck env txin then p.pprev else f) a =
      if l.any (vinCheck env) then p.pprev else a :=
  foldl_flag _ (vinCheck env) p.pprev (fun _ _ => rfl) l a

theorem checkTx_eq (env : ValEnv) (lvl : Int) (p : CBlockIndex)
    (mbp : List ((Nat × Nat) × Nat)) (tx : CTransaction) (fork : Nat) :
    checkTx env lvl p mbp tx fork =
      if txFailsB env lvl p mbp tx then p.pprev else fork := by
  rcases hti : env.readTxIndex tx.txHash with _ | txindex
  · by_cases h4 : lvl > 4
    · simp only [checkTx, txFailsB, hti, if_pos h4, vinFold_eq]
      cases hany : tx.vin.any (vinCheck env) <;> simp [hany, h4]
    · simp only [checkTx, txFailsB, hti, if_neg h4]
      simp [h4]
  · have hmisloc : (if lvl > 2 ∨ p.nFile ≠ txindex.pos.nFile ∨
        p.nBlockPos ≠ txindex.pos.nBlockPos then
          match env.readTxDisk txindex.pos with
          | none => p.pprev
          | some txFound => if txFound.txHash ≠ tx.txHash then p.pprev else fork
        else fork) =
        if (if lvl > 2 ∨ p.nFile ≠ txindex.pos.nFile ∨
            p.nBlockPos ≠ txindex.pos.nBlockPos then
              match env.readTxDisk txindex.pos with
              | none => true
              | some txFound => decide (txFound.txHash ≠ tx.txHash)
            else false) = true then p.pprev else fork := by
      by_cases hc : lvl > 2 ∨ p.nFile ≠ txindex.pos.nFile ∨
          p.nBlockPos ≠ txindex.pos.nBlockPos
      · rcases henv : env.readTxDisk txindex.pos with _ | txFound
        · simp [hc, henv]
        · by_cases hh : txFound.txHash ≠ tx.txHash <;> simp [hc, henv, hh]
      · simp [hc]
    simp only [checkTx, txFailsB, hti, hmisloc]
    by_cases h3 : lvl > 3 <;> by_cases h4 : lvl > 4 <;>
      cases hm : (if lvl > 2 ∨ p.nFile ≠ txindex.pos.nFile ∨
          p.nBlockPos ≠ txindex.pos.nBlockPos then
            match env.readTxDisk txindex.pos with
            | none => true
            | some txFound => decide (txFound.txHash ≠ tx.txHash)
          else false) <;>
        simp only [hm, h3, h4, if_pos, if_neg, if_true, if_false, spentLoop_eq,
          vinFold_eq, decide_eq_true_eq, not_false_eq_true,
          Bool.false_and, Bool.true_and, Bool.false_or,
          Bool.true_or, Bool.or_false, Bool.or_true, ite_self] <;>
        first
          | rfl
          | (cases hs : spentFailsB env lvl p mbp tx.txHash txindex.vSpent 0 <;>
              cases hany : tx.vin.any (vinCheck env) <;>
                simp [hs, hany, h3, h4, spentLoop_eq, vinFold_eq, ite_self])
          | (cases hany : tx.vin.any (vinCheck env) <;>
              simp [hany, h3, h4, ite_self])

theorem checkBlockStep_eq (env : ValEnv) (lvl : Int) (p : CBlockIndex)
    (block : CBlock) (st : VState) :
    checkBlockStep env lvl p block st =
      { st with
        pindexFork :=
          if stepFailsB env lvl p block (mbpAfter lvl p st.mapBlockPos) then p.pprev
          else st.pindexFork,
        mapBlockPos := mbpAfter lvl p st.mapBlockPos } := by
  have hfork0 : (if lvl > 0 ∧ env.checkBlock block (decide (lvl > 6)) = false
      then p.pprev else st.pindexFork) =
      if (decide (lvl > 0) && !env.checkBlock block (decide (lvl > 6))) = true
      then p.pprev else st.pindexFork := by
    by_cases h0 : lvl > 0
    · cases hcb : env.checkBlock block (decide (lvl > 6)) <;> simp [h0, hcb]
    · simp [h0]
  by_cases h1 : lvl > 1
  · have hfold := foldl_flag (fun f tx => checkTx env lvl p
        (ainsert st.mapBlockPos (p.nFile, p.nBlockPos) p.phashBlock) tx f)
      (txFailsB env lvl p (ainsert st.mapBlockPos (p.nFile, p.nBlockPos) p.phashBlock))
      p.pprev
      (fun a tx => checkTx_eq env lvl p _ tx a) block.vtx
    simp only [checkBlockStep, if_pos h1, hfork0, hfold, stepFailsB, mbpAfter]
    cases hb : (decide (lvl > 0) && !env.checkBlock block (decide (lvl > 6))) <;>
      cases hany : block.vtx.any (txFailsB env lvl p
        (ainsert st.mapBlockPos (p.nFile, p.nBlockPos) p.phashBlock)) <;>
      simp [hb, hany, h1]
  · simp only [checkBlockStep, if_neg h1, hfork0, stepFailsB, mbpAfter]
    cases hb : (decide (lvl > 0) && !env.checkBlock block (decide (lvl > 6))) <;>
      simp [hb, h1]

theorem validatorWalk_eq (env : ValEnv) (lvl bestHeight depth : Int) :
    ∀ (chain : List CBlockIndex) (st : VState),
      (∀ p ∈ chain, ¬(p.nHeight < bestHeight - depth)) →
      (∀ p ∈ chain, (env.readBlock p.nFile p.nBlockPos).isSome = true) →
      (validatorWalk env lvl bestHeight depth false chain st).aborted = st.aborted ∧
      (validatorWalk env lvl bestHeight depth false chain st).visited =
        st.visited + chain.length ∧
      (validatorWalk env lvl bestHeight depth false chain st).pindexFork =
        (match (walkFailures env lvl chain st.mapBlockPos).getLast? with
         | some q => q.pprev
         | none => st.pindexFork) := by
  intro chain
  induction chain with
  | nil => intro st _ _; exact ⟨rfl, rfl, rfl⟩
  | cons p rest ih =>
    intro st hh hr
    have hcond : ¬(false = true ∨ p.nHeight < bestHeight - depth) := by
      rintro (hc | hc)
      · simp at hc
      · exact hh p (by simp) hc
    rcases Option.isSome_iff_exists.mp (hr p (by simp)) with ⟨b, hb⟩
    have hstep := checkBlockStep_eq env lvl p b st
    have hwalk : validatorWalk env lvl bestHeight depth false (p :: rest) st =
        validatorWalk env lvl bestHeight depth false rest
          { st with
            pindexFork :=
              if stepFailsB env lvl p b (mbpAfter lvl p st.mapBlockPos) then p.pprev
              else st.pindexFork,
            mapBlockPos := mbpAfter lvl p st.mapBlockPos,
            visited := st.visited + 1 } := by
      simp only [validatorWalk, if_neg hcond, hb]
      rw [hstep]
    have hwf : walkFailures env lvl (p :: rest) st.mapBlockPos =
        (if stepFailsB env lvl p b (mbpAfter lvl p st.mapBlockPos) then [p] else []) ++
          walkFailures env lvl rest (mbpAfter lvl p st.mapBlockPos) := by
      rw [walkFailures, hb]
    rcases ih { st with
        pindexFork :=
          if stepFailsB env lvl p b (mbpAfter lvl p st.mapBlockPos) then p.pprev
          else st.pindexFork,
        mapBlockPos := mbpAfter lvl p st.mapBlockPos,
        visited := st.visited + 1 }
      (fun q hq => hh q (by simp [hq])) (fun q hq => hr q (by simp [hq])) with
      ⟨iha, ihv, ihf⟩
    rw [hwalk, hwf]
    refine ⟨iha, by rw [ihv]; simp [Nat.add_assoc, Nat.add_comm 1 rest.length], ?_⟩
    rw [ihf]
    rcases hrest : (walkFailures env lvl rest (mbpAfter lvl p st.mapBlockPos)).getLast?
      with _ | q
    · have hnil : walkFailures env lvl rest (mbpAfter lvl p st.mapBlockPos) = [] :=
        List.getLast?_eq_none_iff.mp hrest
      rw [hnil]
      cases hf : stepFailsB env lvl p b (mbpAfter lvl p st.mapBlockPos) <;> simp [hf]
    · rw [List.getLast?_append]
      rw [hrest]
      rfl

theorem walkFailures_sublist (env : ValEnv) (lvl : Int) :
    ∀ (chain : List CBlockIndex) (mbp : List ((Nat × Nat) × Nat)),
      (walkFailures env lvl chain mbp).Sublist chain := by
  intro chain
  induction chain with
  | nil => intro mbp; simp [walkFailures]
  | cons p rest ih =>
    intro mbp
    rw [walkFailures]
    rcases env.readBlock p.nFile p.nBlockPos with _ | b
    · exact List.nil_sublist _
    · cases hf : stepFailsB env lvl p b (mbpAfter lvl p mbp)
      · simp only [hf, if_false, List.nil_append]
        exact List.Sublist.cons p (ih _)
      · simp only [hf, if_true, List.singleton_append]
        exact List.Sublist.cons₂ p (ih _)

theorem pairwise_getLast_min {α : Type} (R : α → α → Prop) :
    ∀ (l : List α), l.Pairwise R → ∀ q, l.getLast? = some q →
      ∀ r ∈ l, r ≠ q → R r q := by
  intro l
  induction l with
  | nil => intro _ q hq; simp at hq
  | cons x xs ih =>
    intro hpw q hq r hr hrq
    rcases xs with _ | ⟨y, tl⟩
    · simp at hq
      rcases List.mem_singleton.mp hr with rfl
      subst hq
      exact absurd rfl hrq
    · rw [List.getLast?_cons_cons] at hq
      rw [List.pairwise_cons] at hpw
      rcases List.mem_cons.mp hr with rfl | hr2
      · exact hpw.1 q (List.mem_of_getLast?_eq_some hq)
      · exact ih hpw.2 q hq r hr2 hrq

/-- Claim C4: a backward validation walk (heights strictly decreasing, all
blocks readable, no shutdown, no depth break) in which at least two blocks
fail some enabled check runs to completion (every block is visited, no
abort), and its final repair point is the predecessor of the LAST failing
block in walk order, which is the failing block of lowest height - later,
farther-back failures override earlier, closer ones. -/
theorem c4_repair_point_is_lowest_failure (env : ValEnv) (lvl bestHeight depth : Int)
    (chain : List CBlockIndex)
    (hh : ∀ p ∈ chain, ¬(p.nHeight < bestHeight - depth))
    (hr : ∀ p ∈ chain, (env.readBlock p.nFile p.nBlockPos).isSome = true)
    (hdec : chain.Pairwise (fun a b => b.nHeight < a.nHeight))
    (hlink : chain.Chain' (fun a b => a.pprev = b.phashBlock))
    (hfail2 : 2 ≤ (walkFailures env lvl chain []).length) :
    ∃ q, (walkFailures env lvl chain []).getLast? = some q ∧
      (validatorWalk env lvl bestHeight depth false chain {}).pindexFork = q.pprev ∧
      (∀ r ∈ walkFailures env lvl chain [], r ≠ q → q.nHeight < r.nHeight) ∧
      (validatorWalk env lvl bestHeight depth false chain {}).visited = chain.length ∧
      (validatorWalk env lvl bestHeight depth false chain {}).aborted = false := by
  rcases validatorWalk_eq env lvl bestHeight depth chain {} hh hr with ⟨ha, hv, hf⟩
  have hne : walkFailures env lvl chain [] ≠ [] := by
    intro hc
    rw [hc] at hfail2
    simp at hfail2
  rcases List.getLast?_eq_getLast _ hne ▸ Option.isSome_some with _
  rcases hlast : (walkFailures env lvl chain []).getLast? with _ | q
  · exact absurd (List.getLast?_eq_none_iff.mp hlast) hne
  · refine ⟨q, rfl, ?_, ?_, ?_, ha⟩
    · rw [hf]
      have : (walkFailures env lvl chain ([] : List ((Nat × Nat) × Nat))).getLast? =
          some q := hlast
      rw [this]
    · intro r hrmem hrq
      have hsub := walkFailures_sublist env lvl chain []
      have hpw : (walkFailures env lvl chain []).Pairwise
          (fun a b => b.nHeight < a.nHeight) := hdec.sublist hsub
      exact pairwise_getLast_min _ _ hpw q hlast r hrmem hrq
    · rw [hv]; simp

/-- Claim C5 counterexample: at checklevel 2, the block-7 scenario (its only
transaction has no transaction-index record) leaves the repair point null -
the walk ends with `pindexFork = 0`, not block 6, and the rewind invokes
nothing, because the code only checks transactions whose index record IS
found (`if (ReadTxIndex(...))` with no else branch). -/
theorem c5_counterexample :
    (validatorWalk env5c 2 7 2500 false [n7c] {}).pindexFork = 0 ∧
    (validatorWalk env5c 2 7 2500 false [n7c] {}).pindexFork ≠ n7c.pprev ∧
    rewindTarget (validatorWalk env5c 2 7 2500 false [n7c] {}) false = none := by
  decide

/-- Claim C5 amended: at check levels 2-4, a transaction with NO
transaction-index record is skipped silently - the per-transaction check
leaves the candidate repair point unchanged; only transactions whose record
exists (and fails the mislocation / spent-marker tests) set the repair
point to the block's predecessor. -/
theorem c5_missing_txindex_is_skipped (env : ValEnv) (lvl : Int) (p : CBlockIndex)
    (mbp : List ((Nat × Nat) × Nat)) (tx : CTransaction) (fork : Nat)
    (hmiss : env.readTxIndex tx.txHash = none) (hlvl : lvl ≤ 4) :
    checkTx env lvl p mbp tx fork = fork := by
  have h4 : ¬(lvl > 4) := not_lt.mpr hlvl
  simp only [checkTx, hmiss, if_neg h4]

/-- Witness for the amended C5 at the concrete scenario inputs. -/
theorem c5_witness :
    checkTx env5c 2 n7c [] { txHash := 100 } 0 = 0 :=
  c5_missing_txindex_is_skipped env5c 2 n7c [] { txHash := 100 } 0 (by decide)
    (by decide)

/-- Claim C10: at check level 2 (level-3 checks not requested), a transaction
whose index record's recorded position differs from the containing block's
position is nevertheless re-read from the recorded position: a read failure
or a hash mismatch sets the repair point to the block's predecessor, and a
matching re-read leaves it unchanged. -/
theorem c10_mislocated_checked_at_level2 (env : ValEnv) (p : CBlockIndex)
    (mbp : List ((Nat × Nat) × Nat)) (tx : CTransaction) (fork : Nat)
    (txindex : CTxIndex) (hfound : env.readTxIndex tx.txHash = some txindex)
    (hpos : p.nFile ≠ txindex.pos.nFile ∨ p.nBlockPos ≠ txindex.pos.nBlockPos) :
    (env.readTxDisk txindex.pos = none →
      checkTx env 2 p mbp tx fork = p.pprev) ∧
    (∀ txFound, env.readTxDisk txindex.pos = some txFound →
      txFound.txHash ≠ tx.txHash → checkTx env 2 p mbp tx fork = p.pprev) ∧
    (∀ txFound, env.readTxDisk txindex.pos = some txFound →
      txFound.txHash = tx.txHash → checkTx env 2 p mbp tx fork = fork) := by
  have hcond : (2 : Int) > 2 ∨ p.nFile ≠ txindex.pos.nFile ∨
      p.nBlockPos ≠ txindex.pos.nBlockPos := Or.inr hpos
  have h3 : ¬((2 : Int) > 3) := by decide
  have h4 : ¬((2 : Int) > 4) := by decide
  refine ⟨?_, ?_, ?_⟩
  · intro hread
    simp only [checkTx, hfound, if_pos hcond, hread, if_neg h3, if_neg h4]
  · intro txFound hread hhash
    simp only [checkTx, hfound, if_pos hcond, hread, if_neg h3, if_neg h4, if_pos hhash]
  · intro txFound hread hhash
    have : ¬(txFound.txHash ≠ tx.txHash) := fun hc => hc hhash
    simp only [checkTx, hfound, if_pos hcond, hread, if_neg h3, if_neg h4, if_neg this]

/-- Witness for C4 at a concrete two-block walk where both blocks fail the
structural check. -/
theorem c4_witness :
    ∃ q, (walkFailures env4 1 [pA4, pB4] []).getLast? = some q ∧
      (validatorWalk env4 1 5 2500 false [pA4, pB4] {}).pindexFork = q.pprev ∧
      (∀ r ∈ walkFailures env4 1 [pA4, pB4] [], r ≠ q → q.nHeight < r.nHeight) ∧
      (validatorWalk env4 1 5 2500 false [pA4, pB4] {}).visited = 2 ∧
      (validatorWalk env4 1 5 2500 false [pA4, pB4] {}).aborted = false :=
  c4_repair_point_is_lowest_failure env4 1 5 2500 [pA4, pB4] (by decide) (by decide)
    (by decide) (by simp [List.chain'_cons]; decide) (by decide)

/-- Witness for C10 at concrete inputs (the re-read of the mislocated
transaction fails). -/
theorem c10_witness :
    checkTx env10 2 p10 [] { txHash := 55 } 0 = p10.pprev :=
  (c10_mislocated_checked_at_level2 env10 p10 [] { txHash := 55 } 0 ti10
    (by decide) (by decide)).1 (by decide)

end ECCTxDB
